import Mathlib

/-!
Shallow embedding of the AuroraMart storefront's service layer:

* `recommendations/services.py` — onboarding category prediction
  (`predict_preferred_category`, `_heuristic_category_prediction`) and
  association-rule product recommendation (`recommend_associated_products`,
  `_fallback_association_recommendations`);
* `orders/services.py` — basket mutation (`add_product_to_basket`,
  `update_basket_item`, `remove_basket_item`) and checkout conversion
  (`convert_basket_to_order`);
* the SKU-uniqueness constraint of `catalog/models.py` as validated through
  `catalog/forms.py`'s `ProductForm`.

Database rows become Lean structures, querysets become lists, and the two
`Decimal` columns are embedded exactly: `unit_price` (`Decimal(10,2)`) in
cents as `Int`, `product_rating` (`Decimal(3,1)`, nullable) in tenths of a
star as `Option Int`.  Externally produced artifacts (the decision-tree
model, the association-rules table) are abstracted as data the services are
handed, mirroring how the Python code receives them from `joblib.load`.
-/

namespace AuroraMart

/-- Equality of `Except` results is decidable when it is on both sides. -/
instance {ε α : Type} [DecidableEq ε] [DecidableEq α] :
    DecidableEq (Except ε α) := fun a b =>
  match a, b with
  | .ok x, .ok y =>
    match decEq x y with
    | isTrue h => isTrue (by rw [h])
    | isFalse h => isFalse (by intro hc; cases hc; exact h rfl)
  | .error x, .error y =>
    match decEq x y with
    | isTrue h => isTrue (by rw [h])
    | isFalse h => isFalse (by intro hc; cases hc; exact h rfl)
  | .ok _, .error _ => isFalse (by intro hc; cases hc)
  | .error _, .ok _ => isFalse (by intro hc; cases hc)

/-! ## Dynamic Python values (the onboarding dictionary) -/

/-- A dynamic Python value as it can appear in the onboarding data
dictionary handed to `predict_preferred_category`. -/
inductive PyValue where
  | none
  | bool (b : Bool)
  | int (n : Int)
  | num (q : ℚ)
  | str (s : String)
deriving DecidableEq

/-- Python truthiness (`bool(value)`) for the values above. -/
def PyValue.truthy : PyValue → Bool
  | .none => false
  | .bool b => b
  | .int n => n != 0
  | .num q => q != 0
  | .str s => s != ""

/-- Python `float(value)`.  `Option.none` models a raised exception.
Applied to a numeric string Python's `float` would succeed; onboarding data
never stores income as a string, and that case is conservatively modelled
as an error (it is exercised by no claim). -/
def pyFloat : PyValue → Option ℚ
  | .bool b => some (if b then 1 else 0)
  | .int n => some (n : ℚ)
  | .num q => some q
  | _ => Option.none

/-- An onboarding dictionary: keys are feature names.  A key mapped to
`PyValue.none` and an absent key are indistinguishable through `dict.get`,
exactly as in Python. -/
def PyDict : Type := List (String × PyValue)

/-- Python `d.get(k)` (defaulting to `None`). -/
def pyGet (d : PyDict) (k : String) : PyValue :=
  match List.find? (fun e => e.1 == k) d with
  | some e => e.2
  | Option.none => PyValue.none

/-- Python `d.get(k, dflt)`. -/
def pyGetD (d : PyDict) (k : String) (dflt : PyValue) : PyValue :=
  match List.find? (fun e => e.1 == k) d with
  | some e => e.2
  | Option.none => dflt

/-! ## Category prediction (`predict_preferred_category`) -/

/-- The module-level `ONBOARDING_FEATURES` list (expected feature order for
the onboarding model). -/
def ONBOARDING_FEATURES : List String :=
  ["age", "gender", "employment_status", "occupation", "education",
   "household_size", "has_children", "monthly_income_sgd"]

/-- The decision-tree artifact returned by `get_decision_tree_model`,
abstracted: `featureNames` is the optional `feature_names_in_` attribute
(`getattr(model, "feature_names_in_", ONBOARDING_FEATURES)`), and `predict`
models `model.predict([feature_row])[0]`, with `Option.none` standing for a
raised exception.  A loaded scikit-learn estimator defines neither
`__bool__` nor `__len__`, so `if not model:` in the source is exactly the
`None` test, which the embedding performs on `Option (DTModel)`. -/
structure DTModel where
  featureNames : Option (List String)
  predict : List PyValue → Option String

/-- The per-feature value preparation in the loop body of
`predict_preferred_category` (`recommendations/services.py` lines 62-69):
`has_children` becomes `int(bool(value))`, `monthly_income_sgd` becomes
`float(value)` (or `0.0` for `None`), every other feature is passed raw.
`Option.none` models an exception raised by `float`. -/
def prepareFeature (data : PyDict) (feature : String) : Option PyValue :=
  let value := pyGet data feature
  if feature = "has_children" then
    some (.int (if value.truthy then 1 else 0))
  else if feature = "monthly_income_sgd" then
    if value = .none then some (.num 0) else (pyFloat value).map .num
  else
    some value

/-- The feature-row construction of `predict_preferred_category`: one
prepared value per expected feature, in the model's expected order.
`Option.none` models an exception raised while preparing some feature. -/
def buildFeatureRow (model : DTModel) (data : PyDict) : Option (List PyValue) :=
  go (model.featureNames.getD ONBOARDING_FEATURES)
where
  go : List String → Option (List PyValue)
    | [] => some []
    | feature :: rest =>
      match prepareFeature data feature with
      | Option.none => Option.none
      | some v => (go rest).map (v :: ·)

/-- Lowercasing a string (`str.lower`), character by character. -/
def strLower (s : String) : String := ⟨s.data.map Char.toLower⟩

/-- Whether `needle` is a prefix of `hay` (on character lists). -/
def listStartsB : List Char → List Char → Bool
  | [], _ => true
  | _ :: _, [] => false
  | c :: cs, d :: ds => c == d && listStartsB cs ds

/-- Whether `needle` occurs contiguously inside `hay` (on character lists). -/
def listSubB (needle : List Char) : List Char → Bool
  | [] => listStartsB needle []
  | d :: ds => listStartsB needle (d :: ds) || listSubB needle ds

/-- Python's substring containment test `needle in hay` for strings. -/
def strContainsSub (hay needle : String) : Bool :=
  listSubB needle.data hay.data

/-- Lexicographic comparison of character lists (the database's ordering on
text columns, restricted to the code-point comparison it performs). -/
def charListLe : List Char → List Char → Bool
  | [], _ => true
  | _ :: _, [] => false
  | c :: cs, d :: ds => decide (c < d) || (c == d && charListLe cs ds)

/-- Alphabetical (lexicographic) comparison of strings. -/
def strLeB (a b : String) : Bool := charListLe a.data b.data

/-- The alphabetically first category name:
`ProductCategory.objects.order_by("name").values_list("name", flat=True).first()`.
`categories` is the list of `ProductCategory.name` values in the database
(declared `unique=True`). -/
def firstCategoryName (categories : List String) : Option String :=
  (List.insertionSort (fun a b : String => strLeB a b = true) categories).head?

/-- Model of `_heuristic_category_prediction` (`recommendations/services.py`
lines 77-88).  The result is `Except` so that a raised exception (Python's
`.lower()` on a non-string `"gender"` value raises `AttributeError`, which
this function does not catch) is distinguishable from a returned value. -/
def heuristic_category_prediction (data : PyDict) (categories : List String) :
    Except Unit (Option String) :=
  match pyGetD data "gender" (.str "") with
  | .str g =>
    let gender := strLower g
    if strContainsSub gender "female" then .ok (some "Beauty & Personal Care")
    else if strContainsSub gender "male" then .ok (some "Electronics")
    else .ok (firstCategoryName categories)
  | _ => .error ()

/-- Model of `predict_preferred_category` (`recommendations/services.py`
lines 52-74).  `model?` is what `get_decision_tree_model()` returned
(`Option.none` when the artifact failed to load); exceptions raised inside
the `try` block (feature preparation or `predict`) fall back to the
heuristic, exactly as the source's `except` clause does. -/
def predict_preferred_category (model? : Option DTModel) (data : PyDict)
    (categories : List String) : Except Unit (Option String) :=
  match model? with
  | Option.none => heuristic_category_prediction data categories
  | some model =>
    match buildFeatureRow model data with
    | Option.none => heuristic_category_prediction data categories
    | some row =>
      match model.predict row with
      | Option.none => heuristic_category_prediction data categories
      | some prediction => .ok (some prediction)

/-! ## Catalog rows and association rules -/

/-- A `catalog.models.Product` row.  Fields not read by any modelled service
(name, description, subcategory, reorder quantity, update timestamp) are
omitted.  The `category` foreign key is non-nullable in the schema, so it is
a plain `Nat` id; `created_at` is an auto-set creation timestamp. -/
structure Product where
  id : Nat
  sku : String
  categoryId : Nat
  unit_price : Int
  product_rating : Option Int
  quantity_on_hand : Nat
  is_active : Bool
  created_at : Nat
deriving DecidableEq

/-- One row of the association-rules DataFrame: `antecedents` and
`consequents` are (frozen) sets of SKUs, `confidence` a float score,
embedded as a rational. -/
structure Rule where
  antecedents : List String
  consequents : List String
  confidence : ℚ
deriving DecidableEq

/-- First-occurrence de-duplication with an accumulator of already-seen
elements (the shape of the `seen` set in the source's own de-duplication
loop). -/
def dedupFirstAux {α : Type} [DecidableEq α] (seen : List α) :
    List α → List α
  | [] => []
  | a :: rest =>
    if seen.contains a then dedupFirstAux seen rest
    else a :: dedupFirstAux (a :: seen) rest

/-- First-occurrence de-duplication.  Python's `set` iterates in an
unspecified order; wherever the source materialises a set into a list the
embedding fixes the first-occurrence order of the underlying list. -/
def dedupFirst {α : Type} [DecidableEq α] (l : List α) : List α :=
  dedupFirstAux [] l

/-- The preamble `basket_skus = list({sku for sku in basket_skus if sku})`
of `recommend_associated_products`: drop falsy (empty) SKUs and
de-duplicate. -/
def cleanSkus (basket_skus : List String) : List String :=
  dedupFirst (basket_skus.filter (fun s => s ≠ ""))

/-- The rule lookup
`rules[rules['antecedents'].apply(lambda x: sku in x if x else False)]`:
rows whose (truthy, i.e. non-empty) antecedent set contains `sku`, in table
order. -/
def matchingRules (rules : List Rule) (sku : String) : List Rule :=
  rules.filter (fun r => !r.antecedents.isEmpty && r.antecedents.contains sku)

/-- `matched_rules.sort_values(by='confidence', ascending=False).head(5)`.
pandas' default sort is not stable across ties; the embedding fixes the
stable descending order. -/
def topRules (matched : List Rule) : List Rule :=
  (List.insertionSort (fun a b => b.confidence ≤ a.confidence) matched).take 5

/-- The suggestion-gathering loop of `recommend_associated_products`
(lines 114-137): for each basket SKU in turn, the consequents of its top
five matching rules by descending confidence, concatenated. -/
def suggestionsOf (rules : List Rule) (skus : List String) : List String :=
  skus.flatMap (fun sku =>
    (topRules (matchingRules rules sku)).flatMap (fun r => r.consequents))

/-- The de-duplication loop over suggestions (lines 142-147): keep the first
occurrence of each truthy suggested SKU that is not already in the basket. -/
def uniqueSuggested (basket : List String) (suggestions : List String) :
    List String :=
  dedupFirst (suggestions.filter (fun s => s ≠ "" && !basket.contains s))

/-- The sort key `sku_order.get(p.sku, 999)` used to reorder fetched
products into suggestion order (lines 154-156). -/
def skuSortKey (unique : List String) (sku : String) : Nat :=
  (List.indexOf? sku unique).getD 999

/-! ## The fallback ordering `-product_rating, -quantity_on_hand, -created_at` -/

/-- Rank of a nullable rating: under the database's ascending order a NULL
sorts below every value (SQLite places NULLs last in descending order). -/
def ratingKey : Option Int → Int × Int
  | Option.none => (0, 0)
  | some x => (1, x)

/-- Lexicographic order on 4-tuples of integers. -/
def lex4Le (a b : Int × Int × Int × Int) : Prop :=
  a.1 < b.1 ∨ (a.1 = b.1 ∧ (a.2.1 < b.2.1 ∨ (a.2.1 = b.2.1 ∧
    (a.2.2.1 < b.2.2.1 ∨ (a.2.2.1 = b.2.2.1 ∧ a.2.2.2 ≤ b.2.2.2)))))

instance : DecidableRel lex4Le := fun a b => by
  unfold lex4Le; infer_instance

/-- The full sort key of a product under the fallback ordering (larger keys
come first in query results). -/
def fbKey (p : Product) : Int × Int × Int × Int :=
  ((ratingKey p.product_rating).1, (ratingKey p.product_rating).2,
   (p.quantity_on_hand : Int), (p.created_at : Int))

/-- Product `p` may precede product `q` in a queryset ordered by
`order_by("-product_rating", "-quantity_on_hand", "-created_at")`. -/
def fbLE (p q : Product) : Prop := lex4Le (fbKey q) (fbKey p)

instance : DecidableRel fbLE := fun p q => by
  unfold fbLE; infer_instance

/-- A queryset ordered by the fallback ordering.  Rows tied on the full key
are returned in an order the database does not specify; the embedding fixes
the stable order on the table. -/
def orderByFallback (l : List Product) : List Product :=
  List.insertionSort fbLE l

/-! ## `_fallback_association_recommendations` and `recommend_associated_products` -/

/-- Model of `_fallback_association_recommendations`
(`recommendations/services.py` lines 173-209).  `db` is the product table.
The source's `if p.category` guard inside the category-set comprehension is
always true, because the `category` foreign key is non-nullable. -/
def fallback_association_recommendations (db : List Product)
    (basket_skus : List String) (limit : Nat) (context_products : List Product) :
    List Product :=
  let queryset := db.filter (fun p => !basket_skus.contains p.sku && p.is_active)
  if !context_products.isEmpty then
    let categories := dedupFirst (context_products.map (fun p => p.categoryId))
    if !categories.isEmpty then
      let products :=
        (orderByFallback (queryset.filter (fun p => categories.contains p.categoryId))).take limit
      if limit ≤ products.length then products
      else
        let needed := limit - products.length
        let other :=
          (orderByFallback (db.filter (fun p =>
            !(basket_skus ++ products.map Product.sku).contains p.sku &&
            !categories.contains p.categoryId && p.is_active))).take needed
        (products ++ other).take limit
    else (orderByFallback queryset).take limit
  else (orderByFallback queryset).take limit

/-- The supplement loop of `recommend_associated_products` (lines 162-168):
append fallback products whose SKU is not in `existing` (the SKUs of the
already-found products, computed once before the loop), breaking as soon as
`limit` products are collected. -/
def supplementLoop (existing : List String) (limit : Nat)
    (products : List Product) : List Product → List Product
  | [] => products
  | p :: rest =>
    if existing.contains p.sku then supplementLoop existing limit products rest
    else if limit ≤ (products ++ [p]).length then products ++ [p]
    else supplementLoop existing limit (products ++ [p]) rest

/-- Model of `recommend_associated_products` (`recommendations/services.py`
lines 91-170).  `db` is the product table and `rules?` the association-rules
artifact (`Option.none` when `get_association_rules()` failed to load it). -/
def recommend_associated_products (db : List Product)
    (rules? : Option (List Rule)) (basket_skus : List String) (limit : Nat)
    (context_products : List Product) : List Product :=
  let cleaned := cleanSkus basket_skus
  if cleaned.isEmpty then
    fallback_association_recommendations db cleaned limit context_products
  else
    match rules? with
    | Option.none =>
      fallback_association_recommendations db cleaned limit context_products
    | some rules =>
      let unique := uniqueSuggested cleaned (suggestionsOf rules cleaned)
      let fetched := db.filter (fun p => unique.contains p.sku && p.is_active)
      let products := List.insertionSort
        (fun p q => skuSortKey unique p.sku ≤ skuSortKey unique q.sku) fetched
      let products :=
        if products.length < limit then
          let needed := limit - products.length
          let fb := fallback_association_recommendations db cleaned needed context_products
          supplementLoop (products.map Product.sku) limit products fb
        else products
      products.take limit

/-! ## Orders: baskets, items, orders, and `orders/services.py` -/

/-- An `orders.models.Basket` row (owner, session key and the timestamps are
not read by any modelled service and are omitted). -/
structure Basket where
  id : Nat
  is_converted : Bool
deriving DecidableEq

/-- An `orders.models.BasketItem` row: a line item of a basket, with a
snapshot `unit_price` in cents.  `(basketId, productId)` is unique together
in the schema. -/
structure BasketItem where
  id : Nat
  basketId : Nat
  productId : Nat
  quantity : Nat
  unit_price : Int
deriving DecidableEq

/-- An `orders.models.Order` row; `basket` is one-to-one, `total_amount` is
in cents. -/
structure Order where
  id : Nat
  basketId : Nat
  order_number : String
  total_amount : Int
  status : String
  customerId : Option Nat
deriving DecidableEq

/-- The database state the order services read and write. -/
structure OrderState where
  products : List Product
  baskets : List Basket
  items : List BasketItem
  orders : List Order
deriving DecidableEq

/-- Model of `add_product_to_basket` (`orders/services.py` lines 25-39).
`basket` and `product` are the rows passed in by the caller; `newItemId` is
the primary key the database would assign to a newly created item. -/
def add_product_to_basket (s : OrderState) (basket : Basket)
    (product : Product) (quantity : Nat) (newItemId : Nat) : OrderState :=
  if product.quantity_on_hand ≤ 0 then s
  else
    match s.items.find? (fun it =>
        it.basketId == basket.id && it.productId == product.id) with
    | some item =>
      let item' := { item with
        quantity := min (item.quantity + quantity) product.quantity_on_hand,
        unit_price := product.unit_price }
      { s with items := s.items.map (fun it => if it.id == item.id then item' else it) }
    | Option.none =>
      let item' : BasketItem :=
        { id := newItemId, basketId := basket.id, productId := product.id,
          quantity := min quantity product.quantity_on_hand,
          unit_price := product.unit_price }
      { s with items := s.items ++ [item'] }

/-- Model of `update_basket_item` (`orders/services.py` lines 42-56).  The
requested `quantity` is a raw integer from the request, so it is `Int`; the
`or` in `max_quantity = item.product.quantity_on_hand or quantity` yields
`quantity` when the stock count is falsy (zero). -/
def update_basket_item (s : OrderState) (itemId : Nat) (quantity : Int) :
    OrderState :=
  match s.items.find? (fun it => it.id == itemId) with
  | Option.none => s
  | some item =>
    match s.baskets.find? (fun b => b.id == item.basketId) with
    | Option.none => s
    | some basket =>
      if basket.is_converted then s
      else if quantity ≤ 0 then
        { s with items := s.items.filter (fun it => it.id != itemId) }
      else
        match s.products.find? (fun p => p.id == item.productId) with
        | Option.none => s
        | some product =>
          let maxQuantity : Int :=
            if product.quantity_on_hand = 0 then quantity
            else (product.quantity_on_hand : Int)
          let q := if maxQuantity < quantity then maxQuantity else quantity
          { s with items := s.items.map (fun it =>
              if it.id == itemId then { it with quantity := q.toNat } else it) }

/-- Model of `remove_basket_item` (`orders/services.py` lines 59-68);
returns the new state with the function's boolean result. -/
def remove_basket_item (s : OrderState) (itemId : Nat) : OrderState × Bool :=
  match s.items.find? (fun it => it.id == itemId) with
  | Option.none => (s, false)
  | some item =>
    match s.baskets.find? (fun b => b.id == item.basketId) with
    | Option.none => (s, false)
    | some basket =>
      if basket.is_converted then (s, false)
      else ({ s with items := s.items.filter (fun it => it.id != itemId) }, true)

/-- One pass of the conversion loop body of `convert_basket_to_order`
(lines 78-83): add the line total and decrement the product's stock when
enough is on hand. -/
def convertStep (acc : Int × List Product) (it : BasketItem) :
    Int × List Product :=
  (acc.1 + it.unit_price * (it.quantity : Int),
   acc.2.map (fun p =>
     if p.id == it.productId && it.quantity ≤ p.quantity_on_hand
     then { p with quantity_on_hand := p.quantity_on_hand - it.quantity }
     else p))

/-- Model of `convert_basket_to_order` (`orders/services.py` lines 71-95).
The random order number (`get_random_string`) and the new row's primary key
are inputs; `customer` is the optional customer-profile id.  `hasattr(basket,
"order")` — the reverse one-to-one accessor — is the lookup of an order row
for this basket. -/
def convert_basket_to_order (s : OrderState) (basket : Basket)
    (orderNumber : String) (newOrderId : Nat) (customer : Option Nat) :
    OrderState × Option Order :=
  let bItems := s.items.filter (fun it => it.basketId == basket.id)
  if basket.is_converted || bItems.isEmpty then
    (s, s.orders.find? (fun o => o.basketId == basket.id))
  else
    let acc := bItems.foldl convertStep ((0 : Int), s.products)
    let order : Order :=
      { id := newOrderId, basketId := basket.id, order_number := orderNumber,
        total_amount := acc.1, status := "Placed", customerId := customer }
    ({ s with
        products := acc.2,
        orders := s.orders ++ [order],
        baskets := s.baskets.map (fun b =>
          if b.id == basket.id then { b with is_converted := true } else b) },
     some order)

/-! ## `ProductForm` SKU uniqueness (`catalog/forms.py`, `catalog/models.py`) -/

/-- The `sku` uniqueness check `ProductForm.is_valid()` performs for a new
product: the `Product.sku` column is declared `unique=True`
(`catalog/models.py` line 52) and `sku` is among the form's fields, so the
framework's `validate_unique` rejects a submission whose SKU an existing row
already carries.  The form's other field validations are not modelled. -/
def productFormSkuValid (db : List Product) (sku : String) : Bool :=
  !(db.map Product.sku).contains sku

/-- The create-product flow: the submitted product row is saved only when
the form validates. -/
def create_product (db : List Product) (p : Product) : List Product :=
  if productFormSkuValid db p.sku then db ++ [p] else db

/-! ## Helper lemmas: the lexicographic string order -/

theorem charListLe_refl : ∀ l : List Char, charListLe l l = true
  | [] => rfl
  | c :: cs => by
    simp [charListLe, charListLe_refl cs]

theorem charListLe_total : ∀ a b : List Char,
    charListLe a b = true ∨ charListLe b a = true
  | [], _ => Or.inl rfl
  | _ :: _, [] => Or.inr rfl
  | c :: cs, d :: ds => by
    simp only [charListLe, Bool.or_eq_true, Bool.and_eq_true, beq_iff_eq,
      decide_eq_true_eq]
    rcases lt_trichotomy c d with h | h | h
    · exact Or.inl (Or.inl h)
    · rcases charListLe_total cs ds with ih | ih
      · exact Or.inl (Or.inr ⟨h, ih⟩)
      · exact Or.inr (Or.inr ⟨h.symm, ih⟩)
    · exact Or.inr (Or.inl h)

theorem charListLe_trans : ∀ a b c : List Char,
    charListLe a b = true → charListLe b c = true → charListLe a c = true
  | [], _, _, _, _ => rfl
  | _ :: _, [], _, hab, _ => by simp [charListLe] at hab
  | _ :: _, _ :: _, [], _, hbc => by simp [charListLe] at hbc
  | a :: as, b :: bs, c :: cs, hab, hbc => by
    simp only [charListLe, Bool.or_eq_true, Bool.and_eq_true, beq_iff_eq,
      decide_eq_true_eq] at hab hbc ⊢
    rcases hab with hab | ⟨hab, hab'⟩
    · rcases hbc with hbc | ⟨hbc, _⟩
      · exact Or.inl (lt_trans hab hbc)
      · exact Or.inl (hbc ▸ hab)
    · rcases hbc with hbc | ⟨hbc, hbc'⟩
      · exact Or.inl (hab ▸ hbc)
      · exact Or.inr ⟨hab.trans hbc, charListLe_trans as bs cs hab' hbc'⟩

theorem strLeB_refl (s : String) : strLeB s s = true := charListLe_refl s.data

theorem strLeB_total (a b : String) : strLeB a b = true ∨ strLeB b a = true :=
  charListLe_total a.data b.data

theorem strLeB_trans {a b c : String} (h₁ : strLeB a b = true)
    (h₂ : strLeB b c = true) : strLeB a c = true :=
  charListLe_trans a.data b.data c.data h₁ h₂

/-- The head of the name-sorted category list is an alphabetically least
category name. -/
theorem firstCategoryName_spec (categories : List String)
    (h : categories ≠ []) :
    ∃ m, firstCategoryName categories = some m ∧ m ∈ categories ∧
      ∀ c ∈ categories, strLeB m c = true := by
  haveI : IsTotal String (fun a b => strLeB a b = true) := ⟨strLeB_total⟩
  haveI : IsTrans String (fun a b => strLeB a b = true) :=
    ⟨fun _ _ _ => strLeB_trans⟩
  have hsorted := List.sorted_insertionSort
    (fun a b : String => strLeB a b = true) categories
  have hperm := List.perm_insertionSort
    (fun a b : String => strLeB a b = true) categories
  rcases hl : List.insertionSort (fun a b : String => strLeB a b = true)
      categories with _ | ⟨m, tl⟩
  · rw [hl] at hperm
    exact absurd hperm.symm.eq_nil h
  · refine ⟨m, by simp [firstCategoryName, hl], ?_, ?_⟩
    · exact hperm.mem_iff.mp (by rw [hl]; exact List.mem_cons_self m tl)
    · intro c hc
      have hc' : c ∈ m :: tl := by rw [← hl]; exact hperm.mem_iff.mpr hc
      rcases List.mem_cons.mp hc' with rfl | hc''
      · exact strLeB_refl c
      · rw [hl] at hsorted
        exact List.rel_of_sorted_cons hsorted c hc''

/-! ## C10: the heuristic tests "female" before "male" -/

/-- C10: `_heuristic_category_prediction` tests the lowercased gender for
the substring `"female"` before `"male"`: a gender containing `"female"`
yields Beauty & Personal Care even though `"male"` is also one of its
substrings, a gender containing `"male"` but not `"female"` yields
Electronics, and otherwise the alphabetically first category name is
returned, `none` when no categories exist. -/
theorem heuristic_tests_female_first (data : PyDict) (categories : List String)
    (g : String) (hg : pyGetD data "gender" (.str "") = .str g) :
    (strContainsSub (strLower g) "female" = true →
      heuristic_category_prediction data categories =
        .ok (some "Beauty & Personal Care")) ∧
    (strContainsSub (strLower g) "female" = false →
      strContainsSub (strLower g) "male" = true →
      heuristic_category_prediction data categories = .ok (some "Electronics")) ∧
    (strContainsSub (strLower g) "female" = false →
      strContainsSub (strLower g) "male" = false →
      heuristic_category_prediction data categories =
        .ok (firstCategoryName categories) ∧
      (categories = [] → firstCategoryName categories = Option.none) ∧
      (categories ≠ [] → ∃ m, firstCategoryName categories = some m ∧
        m ∈ categories ∧ ∀ c ∈ categories, strLeB m c = true)) := by
  refine ⟨fun hf => ?_, fun hf hm => ?_, fun hf hm => ⟨?_, fun hc => ?_, fun hc => ?_⟩⟩
  · simp [heuristic_category_prediction, hg, hf]
  · simp [heuristic_category_prediction, hg, hf, hm]
  · simp [heuristic_category_prediction, hg, hf, hm]
  · subst hc; rfl
  · exact firstCategoryName_spec categories hc

/-- Witness for C10 at a concrete dictionary: the gender `"Female"`
contains both substrings yet yields Beauty & Personal Care. -/
theorem heuristic_tests_female_first_witness :
    strContainsSub (strLower "Female") "male" = true ∧
    heuristic_category_prediction [("gender", .str "Female")] ["b", "a"] =
      .ok (some "Beauty & Personal Care") :=
  ⟨by decide,
   (heuristic_tests_female_first [("gender", .str "Female")] ["b", "a"]
     "Female" rfl).1 (by decide)⟩

/-! ## C2: model fallback behaviour of `predict_preferred_category` -/

/-- A successful feature-row construction is exactly the prepared value of
every expected feature, in the model's expected order. -/
theorem buildFeatureRow_go_spec (data : PyDict) :
    ∀ (feats : List String) (row : List PyValue),
      buildFeatureRow.go data feats = some row →
      row = feats.map (fun f => (prepareFeature data f).getD PyValue.none)
  | [], row, h => by
    simp only [buildFeatureRow.go, Option.some_inj] at h
    simp [← h]
  | f :: rest, row, h => by
    simp only [buildFeatureRow.go] at h
    rcases hf : prepareFeature data f with _ | v <;> rw [hf] at h
    · exact absurd h (by simp)
    · rcases hrest : buildFeatureRow.go data rest with _ | row' <;> rw [hrest] at h
      · exact absurd h (by simp)
      · have h' : v :: row' = row := by simpa using h
        rw [← h', buildFeatureRow_go_spec data rest row' hrest]
        simp [hf]

/-- C2: when the decision-tree artifact is unavailable, or the loaded
model's `predict` raises, `predict_preferred_category` returns exactly the
heuristic prediction; when the model predicts successfully the prediction is
returned, built from the features in the model's expected order. -/
theorem predict_preferred_category_spec (model? : Option DTModel)
    (data : PyDict) (categories : List String) :
    (model? = Option.none →
      predict_preferred_category model? data categories =
        heuristic_category_prediction data categories) ∧
    (∀ model row, model? = some model → buildFeatureRow model data = some row →
      model.predict row = Option.none →
      predict_preferred_category model? data categories =
        heuristic_category_prediction data categories) ∧
    (∀ model row prediction, model? = some model →
      buildFeatureRow model data = some row →
      model.predict row = some prediction →
      predict_preferred_category model? data categories = .ok (some prediction)) ∧
    (∀ model row, model? = some model → buildFeatureRow model data = some row →
      row = (model.featureNames.getD ONBOARDING_FEATURES).map
        (fun f => (prepareFeature data f).getD PyValue.none)) := by
  refine ⟨fun h => by rw [h]; rfl,
    fun model row hm hrow hpred => ?_,
    fun model row prediction hm hrow hpred => ?_,
    fun model row hm hrow => buildFeatureRow_go_spec data _ row hrow⟩
  · rw [hm]; simp [predict_preferred_category, hrow, hpred]
  · rw [hm]; simp [predict_preferred_category, hrow, hpred]

/-- Witness for C2: a model whose `predict` always raises falls back to the
heuristic on a concrete dictionary. -/
theorem predict_preferred_category_spec_witness :
    predict_preferred_category
      (some ⟨Option.none, fun _ => Option.none⟩)
      [("gender", .str "male")] [] =
    heuristic_category_prediction [("gender", .str "male")] [] :=
  (predict_preferred_category_spec
      (some ⟨Option.none, fun _ => Option.none⟩)
      [("gender", .str "male")] []).2.1
    ⟨Option.none, fun _ => Option.none⟩
    [.none, .str "male", .none, .none, .none, .none, .int 0, .num 0]
    rfl (by decide) rfl

/-! ## C8: duplicate SKUs fail `ProductForm` validation -/

/-- C8: submitting a `ProductForm` for a new product whose SKU an existing
product already carries is invalid, no second product with that SKU is
created, and the existing product is unchanged. -/
theorem duplicate_sku_rejected (db : List Product) (q p : Product)
    (hq : q ∈ db) (hsku : p.sku = q.sku) :
    productFormSkuValid db p.sku = false ∧
    create_product db p = db ∧ q ∈ create_product db p := by
  have hmem : p.sku ∈ db.map Product.sku := by
    rw [hsku]; exact List.mem_map_of_mem Product.sku hq
  have hval : productFormSkuValid db p.sku = false := by
    simp [productFormSkuValid, hmem]
  refine ⟨hval, ?_, ?_⟩
  · simp [create_product, hval]
  · simp [create_product, hval, hq]

/-- Witness for C8 at a concrete one-row table. -/
theorem duplicate_sku_rejected_witness :
    create_product [⟨1, "SKU-1", 1, 100, Option.none, 5, true, 0⟩]
      ⟨2, "SKU-1", 1, 200, Option.none, 3, true, 1⟩ =
    [⟨1, "SKU-1", 1, 100, Option.none, 5, true, 0⟩] :=
  (duplicate_sku_rejected [⟨1, "SKU-1", 1, 100, Option.none, 5, true, 0⟩]
    ⟨1, "SKU-1", 1, 100, Option.none, 5, true, 0⟩
    ⟨2, "SKU-1", 1, 200, Option.none, 3, true, 1⟩
    (List.mem_singleton.mpr rfl) rfl).2.1

/-! ## Helper lemmas: the conversion fold -/

/-- The running total of the conversion loop is the sum of line totals. -/
theorem foldl_convertStep_total :
    ∀ (its : List BasketItem) (t : Int) (ps : List Product),
      (its.foldl convertStep (t, ps)).1 =
        t + (its.map (fun it => it.unit_price * (it.quantity : Int))).sum
  | [], t, ps => by simp
  | it :: rest, t, ps => by
    rw [List.foldl_cons, foldl_convertStep_total rest]
    simp [convertStep, add_assoc]

/-- Post-fold product table: when the converted items reference pairwise
distinct products, each product is decremented by the quantity of its
(unique) basket item exactly when enough stock is on hand, and untouched
otherwise. -/
theorem foldl_convertStep_products :
    ∀ (its : List BasketItem) (t : Int) (ps : List Product),
      its.Pairwise (fun a b => a.productId ≠ b.productId) →
      (its.foldl convertStep (t, ps)).2 = ps.map (fun p =>
        match its.find? (fun it => it.productId == p.id) with
        | some it =>
          if it.quantity ≤ p.quantity_on_hand
          then { p with quantity_on_hand := p.quantity_on_hand - it.quantity }
          else p
        | Option.none => p)
  | [], t, ps, _ => by simp
  | it :: rest, t, ps, hpw => by
    have hhead : ∀ b ∈ rest, it.productId ≠ b.productId :=
      (List.pairwise_cons.mp hpw).1
    have htail : rest.Pairwise (fun a b => a.productId ≠ b.productId) :=
      (List.pairwise_cons.mp hpw).2
    rw [List.foldl_cons]
    have hstep : convertStep (t, ps) it =
        (t + it.unit_price * (it.quantity : Int),
         ps.map (fun p =>
           if p.id == it.productId && it.quantity ≤ p.quantity_on_hand
           then { p with quantity_on_hand := p.quantity_on_hand - it.quantity }
           else p)) := rfl
    rw [hstep, foldl_convertStep_products rest _ _ htail, List.map_map]
    refine List.map_congr_left (fun p _ => ?_)
    simp only [Function.comp_apply]
    by_cases hid : it.productId = p.id
    · have hfr : rest.find? (fun i => i.productId == p.id) = Option.none := by
        rw [List.find?_eq_none]
        intro i hi
        simp only [beq_iff_eq]
        exact fun hcon => hhead i hi (by rw [hid, hcon])
      have hcons : (it :: rest).find? (fun i => i.productId == p.id) = some it :=
        List.find?_cons_of_pos _ (by simp [hid])
      by_cases hqty : it.quantity ≤ p.quantity_on_hand
      · simp [hid, hqty, hfr, hcons]
      · simp [hid, hqty, hfr, hcons]
    · have hcons : (it :: rest).find? (fun i => i.productId == p.id) =
          rest.find? (fun i => i.productId == p.id) :=
        List.find?_cons_of_neg _ (by simp [hid])
      have h1 : (p.id == it.productId) = false := by
        simpa using fun h : p.id = it.productId => hid h.symm
      have hguard : (p.id == it.productId &&
          decide (it.quantity ≤ p.quantity_on_hand)) = false := by
        rw [h1, Bool.false_and]
      simp only [hguard, Bool.false_eq_true, if_false, hcons]

/-- The conversion branch of `convert_basket_to_order` spelled out. -/
theorem convert_basket_to_order_eq (s : OrderState) (basket : Basket)
    (orderNumber : String) (newOrderId : Nat) (customer : Option Nat)
    (hguard : (basket.is_converted ||
      (s.items.filter (fun it => it.basketId == basket.id)).isEmpty) = false) :
    convert_basket_to_order s basket orderNumber newOrderId customer =
      ({ s with
          products := ((s.items.filter (fun it => it.basketId == basket.id)).foldl
            convertStep ((0 : Int), s.products)).2,
          orders := s.orders ++ [⟨newOrderId, basket.id, orderNumber,
            ((s.items.filter (fun it => it.basketId == basket.id)).foldl
              convertStep ((0 : Int), s.products)).1, "Placed", customer⟩],
          baskets := s.baskets.map (fun b =>
            if b.id == basket.id then { b with is_converted := true } else b) },
       some ⟨newOrderId, basket.id, orderNumber,
         ((s.items.filter (fun it => it.basketId == basket.id)).foldl
           convertStep ((0 : Int), s.products)).1, "Placed", customer⟩) := by
  simp only [convert_basket_to_order, hguard, Bool.false_eq_true, if_false]

/-! ## C5: converting a non-empty, unconverted basket creates one order -/

/-- C5: for a basket that is not yet converted and has at least one item,
`convert_basket_to_order` appends exactly one order, linked to the basket,
totalling the sum of `unit_price * quantity` over the basket's items, with
status `"Placed"`; it marks the basket converted and returns the order. -/
theorem convert_creates_order (s : OrderState) (basket : Basket)
    (orderNumber : String) (newOrderId : Nat) (customer : Option Nat)
    (hnc : basket.is_converted = false)
    (hitems : s.items.filter (fun it => it.basketId == basket.id) ≠ []) :
    ∃ o : Order,
      (convert_basket_to_order s basket orderNumber newOrderId customer).2 =
        some o ∧
      (convert_basket_to_order s basket orderNumber newOrderId customer).1.orders =
        s.orders ++ [o] ∧
      o.basketId = basket.id ∧ o.status = "Placed" ∧
      o.total_amount =
        ((s.items.filter (fun it => it.basketId == basket.id)).map
          (fun it => it.unit_price * (it.quantity : Int))).sum ∧
      (convert_basket_to_order s basket orderNumber newOrderId customer).1.baskets =
        s.baskets.map (fun b =>
          if b.id == basket.id then { b with is_converted := true } else b) := by
    have hguard : (basket.is_converted ||
        (s.items.filter (fun it => it.basketId == basket.id)).isEmpty) = false := by
      simp [hnc, List.isEmpty_iff, hitems]
    rw [convert_basket_to_order_eq s basket orderNumber newOrderId customer hguard]
    exact ⟨_, rfl, rfl, rfl, rfl,
      by simpa using foldl_convertStep_total _ 0 s.products, rfl⟩

/-- Witness for C5 at a concrete one-item basket. -/
theorem convert_creates_order_witness :
    (⟨1, false⟩ : Basket).is_converted = false ∧
    ∃ o : Order,
      (convert_basket_to_order
        ⟨[⟨1, "A", 1, 100, Option.none, 5, true, 0⟩], [⟨1, false⟩],
         [⟨1, 1, 1, 2, 150⟩], []⟩
        ⟨1, false⟩ "ORD-X" 1 Option.none).2 = some o ∧
      (convert_basket_to_order
        ⟨[⟨1, "A", 1, 100, Option.none, 5, true, 0⟩], [⟨1, false⟩],
         [⟨1, 1, 1, 2, 150⟩], []⟩
        ⟨1, false⟩ "ORD-X" 1 Option.none).1.orders = [] ++ [o] ∧
      o.basketId = 1 ∧ o.status = "Placed" ∧
      o.total_amount =
        (((⟨[⟨1, "A", 1, 100, Option.none, 5, true, 0⟩], [⟨1, false⟩],
            [⟨1, 1, 1, 2, 150⟩], []⟩ : OrderState).items.filter
              (fun it => it.basketId == (1 : Nat))).map
          (fun it => it.unit_price * (it.quantity : Int))).sum ∧
      (convert_basket_to_order
        ⟨[⟨1, "A", 1, 100, Option.none, 5, true, 0⟩], [⟨1, false⟩],
         [⟨1, 1, 1, 2, 150⟩], []⟩
        ⟨1, false⟩ "ORD-X" 1 Option.none).1.baskets =
        [⟨1, false⟩].map (fun b : Basket =>
          if b.id == (1 : Nat) then { b with is_converted := true } else b) :=
  ⟨rfl, convert_creates_order
    ⟨[⟨1, "A", 1, 100, Option.none, 5, true, 0⟩], [⟨1, false⟩],
     [⟨1, 1, 1, 2, 150⟩], []⟩
    ⟨1, false⟩ "ORD-X" 1 Option.none rfl (by decide)⟩

/-! ## C7: converting a converted or empty basket changes nothing -/

/-- C7: when the basket is already converted or has no items,
`convert_basket_to_order` leaves the whole state unchanged and returns the
basket's existing order when one exists, `none` otherwise. -/
theorem convert_noop (s : OrderState) (basket : Basket)
    (orderNumber : String) (newOrderId : Nat) (customer : Option Nat)
    (h : basket.is_converted = true ∨
      s.items.filter (fun it => it.basketId == basket.id) = []) :
    convert_basket_to_order s basket orderNumber newOrderId customer =
      (s, s.orders.find? (fun o => o.basketId == basket.id)) ∧
    (s.orders.find? (fun o => o.basketId == basket.id) = Option.none ↔
      ∀ o ∈ s.orders, o.basketId ≠ basket.id) := by
  have hguard : (basket.is_converted ||
      (s.items.filter (fun it => it.basketId == basket.id)).isEmpty) = true := by
    rcases h with h | h
    · simp [h]
    · simp [h]
  refine ⟨by simp only [convert_basket_to_order, hguard, if_true], ?_⟩
  rw [List.find?_eq_none]
  constructor
  · intro hall o ho
    have := hall o ho
    simpa using this
  · intro hall o ho
    simpa using hall o ho

/-- Witness for C7: an already-converted basket with an existing order. -/
theorem convert_noop_witness :
    convert_basket_to_order
      ⟨[], [⟨1, true⟩], [⟨1, 1, 1, 2, 150⟩], [⟨7, 1, "ORD-A", 300, "Placed", Option.none⟩]⟩
      ⟨1, true⟩ "ORD-B" 9 Option.none =
    (⟨[], [⟨1, true⟩], [⟨1, 1, 1, 2, 150⟩], [⟨7, 1, "ORD-A", 300, "Placed", Option.none⟩]⟩,
     [(⟨7, 1, "ORD-A", 300, "Placed", Option.none⟩ : Order)].find?
       (fun o => o.basketId == (1 : Nat))) :=
  (convert_noop
    ⟨[], [⟨1, true⟩], [⟨1, 1, 1, 2, 150⟩], [⟨7, 1, "ORD-A", 300, "Placed", Option.none⟩]⟩
    ⟨1, true⟩ "ORD-B" 9 Option.none (Or.inl rfl)).1

/-! ## C9: stock is decremented only when enough is on hand -/

/-- C9: during a real conversion each product referenced by a basket item
has its stock decremented by the item's quantity exactly when at least that
much is on hand, and is left unchanged otherwise, while every item still
contributes `unit_price * quantity` to the order total.  The basket's items
reference pairwise distinct products (`unique_together = ("basket",
"product")`). -/
theorem convert_stock_safety (s : OrderState) (basket : Basket)
    (orderNumber : String) (newOrderId : Nat) (customer : Option Nat)
    (hnc : basket.is_converted = false)
    (hitems : s.items.filter (fun it => it.basketId == basket.id) ≠ [])
    (hdistinct : (s.items.filter (fun it => it.basketId == basket.id)).Pairwise
      (fun a b => a.productId ≠ b.productId)) :
    (convert_basket_to_order s basket orderNumber newOrderId customer).1.products =
      s.products.map (fun p =>
        match (s.items.filter (fun it => it.basketId == basket.id)).find?
            (fun it => it.productId == p.id) with
        | some it =>
          if it.quantity ≤ p.quantity_on_hand
          then { p with quantity_on_hand := p.quantity_on_hand - it.quantity }
          else p
        | Option.none => p) ∧
    ∃ o : Order,
      (convert_basket_to_order s basket orderNumber newOrderId customer).2 =
        some o ∧
      o.total_amount =
        ((s.items.filter (fun it => it.basketId == basket.id)).map
          (fun it => it.unit_price * (it.quantity : Int))).sum := by
  have hguard : (basket.is_converted ||
      (s.items.filter (fun it => it.basketId == basket.id)).isEmpty) = false := by
    simp [hnc, List.isEmpty_iff, hitems]
  rw [convert_basket_to_order_eq s basket orderNumber newOrderId customer hguard]
  exact ⟨foldl_convertStep_products _ 0 s.products hdistinct,
    _, rfl, by simpa using foldl_convertStep_total _ 0 s.products⟩

/-- Witness for C9: one item within stock, one exceeding it. -/
theorem convert_stock_safety_witness :
    (convert_basket_to_order
      ⟨[⟨1, "A", 1, 100, Option.none, 5, true, 0⟩,
        ⟨2, "B", 1, 100, Option.none, 3, true, 0⟩],
       [⟨1, false⟩], [⟨1, 1, 1, 2, 150⟩, ⟨2, 1, 2, 9, 200⟩], []⟩
      ⟨1, false⟩ "ORD-X" 1 Option.none).1.products =
      [⟨1, "A", 1, 100, Option.none, 5, true, 0⟩,
       ⟨2, "B", 1, 100, Option.none, 3, true, 0⟩].map (fun p =>
        match (([⟨1, 1, 1, 2, 150⟩, ⟨2, 1, 2, 9, 200⟩] : List BasketItem).filter
            (fun it => it.basketId == (1 : Nat))).find?
            (fun it => it.productId == p.id) with
        | some it =>
          if it.quantity ≤ p.quantity_on_hand
          then { p with quantity_on_hand := p.quantity_on_hand - it.quantity }
          else p
        | Option.none => p) :=
  (convert_stock_safety
    ⟨[⟨1, "A", 1, 100, Option.none, 5, true, 0⟩,
      ⟨2, "B", 1, 100, Option.none, 3, true, 0⟩],
     [⟨1, false⟩], [⟨1, 1, 1, 2, 150⟩, ⟨2, 1, 2, 9, 200⟩], []⟩
    ⟨1, false⟩ "ORD-X" 1 Option.none rfl (by decide) (by decide)).1

/-! ## C6 (corrected): `add_product_to_basket` skips the conversion guard -/

/-- Counterexample to C6 as stated: `add_product_to_basket` performs no
`is_converted` check, so adding an in-stock product to an
already-converted basket creates a basket item. -/
theorem add_to_converted_basket_mutates :
    (⟨1, true⟩ : Basket).is_converted = true ∧
    (add_product_to_basket
      ⟨[⟨1, "A", 1, 100, Option.none, 5, true, 0⟩], [⟨1, true⟩], [], []⟩
      ⟨1, true⟩ ⟨1, "A", 1, 100, Option.none, 5, true, 0⟩ 1 1).items ≠
    (⟨[⟨1, "A", 1, 100, Option.none, 5, true, 0⟩], [⟨1, true⟩], [], []⟩ :
      OrderState).items := by
  exact ⟨rfl, by decide⟩

/-- C6 as amended: `update_basket_item` and `remove_basket_item` leave a
converted basket's items unchanged — the update neither changes a quantity
nor deletes, and the removal returns `False` without deleting — but
`add_product_to_basket` has no conversion guard: whenever the product has
positive stock and the basket holds no item for it yet, it appends a new
item regardless of `is_converted`. -/
theorem converted_basket_guards (s : OrderState) :
    (∀ (itemId : Nat) (q : Int) (item : BasketItem) (basket : Basket),
      s.items.find? (fun it => it.id == itemId) = some item →
      s.baskets.find? (fun b => b.id == item.basketId) = some basket →
      basket.is_converted = true →
      update_basket_item s itemId q = s) ∧
    (∀ (itemId : Nat) (item : BasketItem) (basket : Basket),
      s.items.find? (fun it => it.id == itemId) = some item →
      s.baskets.find? (fun b => b.id == item.basketId) = some basket →
      basket.is_converted = true →
      remove_basket_item s itemId = (s, false)) ∧
    (∀ (basket : Basket) (product : Product) (quantity newItemId : Nat),
      product.quantity_on_hand ≠ 0 →
      s.items.find? (fun it =>
        it.basketId == basket.id && it.productId == product.id) = Option.none →
      (add_product_to_basket s basket product quantity newItemId).items =
        s.items ++ [⟨newItemId, basket.id, product.id,
          min quantity product.quantity_on_hand, product.unit_price⟩]) := by
  refine ⟨fun itemId q item basket hit hb hconv => ?_,
    fun itemId item basket hit hb hconv => ?_,
    fun basket product quantity newItemId hstock hnone => ?_⟩
  · simp [update_basket_item, hit, hb, hconv]
  · simp [remove_basket_item, hit, hb, hconv]
  · have : ¬ product.quantity_on_hand ≤ 0 := by omega
    simp [add_product_to_basket, this, hnone]

/-- Witness for the amended C6 at concrete converted-basket states. -/
theorem converted_basket_guards_witness :
    update_basket_item
      ⟨[], [⟨1, true⟩], [⟨1, 1, 1, 2, 150⟩], []⟩ 1 3 =
      ⟨[], [⟨1, true⟩], [⟨1, 1, 1, 2, 150⟩], []⟩ ∧
    remove_basket_item
      ⟨[], [⟨1, true⟩], [⟨1, 1, 1, 2, 150⟩], []⟩ 1 =
      (⟨[], [⟨1, true⟩], [⟨1, 1, 1, 2, 150⟩], []⟩, false) ∧
    (add_product_to_basket
      ⟨[], [⟨1, true⟩], [], []⟩ ⟨1, true⟩
      ⟨1, "A", 1, 100, Option.none, 5, true, 0⟩ 2 4).items =
      [] ++ [⟨4, 1, 1, min 2 5, 100⟩] :=
  ⟨(converted_basket_guards ⟨[], [⟨1, true⟩], [⟨1, 1, 1, 2, 150⟩], []⟩).1
      1 3 ⟨1, 1, 1, 2, 150⟩ ⟨1, true⟩ rfl rfl rfl,
   (converted_basket_guards ⟨[], [⟨1, true⟩], [⟨1, 1, 1, 2, 150⟩], []⟩).2.1
      1 ⟨1, 1, 1, 2, 150⟩ ⟨1, true⟩ rfl rfl rfl,
   (converted_basket_guards ⟨[], [⟨1, true⟩], [], []⟩).2.2
      ⟨1, true⟩ ⟨1, "A", 1, 100, Option.none, 5, true, 0⟩ 2 4
      (by decide) rfl⟩

/-! ## Helper lemmas: de-duplication -/

theorem mem_dedupFirstAux {α : Type} [DecidableEq α] :
    ∀ (l : List α) (seen : List α) (a : α),
      a ∈ dedupFirstAux seen l ↔ a ∈ l ∧ a ∉ seen
  | [], seen, a => by simp [dedupFirstAux]
  | b :: rest, seen, a => by
    simp only [dedupFirstAux]
    by_cases hb : seen.contains b = true
    · have hbmem : b ∈ seen := by simpa using hb
      rw [if_pos hb, mem_dedupFirstAux rest seen a]
      simp only [List.mem_cons]
      constructor
      · exact fun ⟨h1, h2⟩ => ⟨Or.inr h1, h2⟩
      · rintro ⟨h1 | h1, h2⟩
        · exact absurd (h1 ▸ hbmem) h2
        · exact ⟨h1, h2⟩
    · have hbmem : b ∉ seen := by simpa using hb
      rw [if_neg hb]
      simp only [List.mem_cons, mem_dedupFirstAux rest (b :: seen) a]
      constructor
      · rintro (rfl | ⟨h1, h2⟩)
        · exact ⟨Or.inl rfl, hbmem⟩
        · exact ⟨Or.inr h1, fun hc => h2 (Or.inr hc)⟩
      · rintro ⟨rfl | h1, h2⟩
        · exact Or.inl rfl
        · by_cases hab : a = b
          · exact Or.inl hab
          · exact Or.inr ⟨h1, by simp [hab, h2]⟩

theorem nodup_dedupFirstAux {α : Type} [DecidableEq α] :
    ∀ (l : List α) (seen : List α), (dedupFirstAux seen l).Nodup
  | [], seen => List.nodup_nil
  | b :: rest, seen => by
    simp only [dedupFirstAux]
    by_cases hb : seen.contains b = true
    · rw [if_pos hb]; exact nodup_dedupFirstAux rest seen
    · rw [if_neg hb]
      rw [List.nodup_cons]
      refine ⟨fun hc => ?_, nodup_dedupFirstAux rest (b :: seen)⟩
      exact ((mem_dedupFirstAux rest (b :: seen) b).mp hc).2 (List.mem_cons_self b seen)

theorem mem_dedupFirst {α : Type} [DecidableEq α] (l : List α) (a : α) :
    a ∈ dedupFirst l ↔ a ∈ l := by
  simp [dedupFirst, mem_dedupFirstAux]

theorem nodup_dedupFirst {α : Type} [DecidableEq α] (l : List α) :
    (dedupFirst l).Nodup :=
  nodup_dedupFirstAux l []

theorem mem_cleanSkus (basket_skus : List String) (s : String) :
    s ∈ cleanSkus basket_skus ↔ s ∈ basket_skus ∧ s ≠ "" := by
  simp [cleanSkus, mem_dedupFirst, List.mem_filter]

theorem nodup_cleanSkus (basket_skus : List String) :
    (cleanSkus basket_skus).Nodup :=
  nodup_dedupFirst _

theorem mem_uniqueSuggested (basket suggestions : List String) (s : String) :
    s ∈ uniqueSuggested basket suggestions ↔
      s ∈ suggestions ∧ s ≠ "" ∧ s ∉ basket := by
  simp only [uniqueSuggested, mem_dedupFirst, List.mem_filter,
    Bool.and_eq_true, Bool.not_eq_true', ne_eq, and_assoc]
  constructor
  · rintro ⟨h1, h2, h3⟩
    exact ⟨h1, by simpa using h2, by simpa using h3⟩
  · rintro ⟨h1, h2, h3⟩
    exact ⟨h1, by simpa using h2, by simpa using h3⟩

theorem nodup_uniqueSuggested (basket suggestions : List String) :
    (uniqueSuggested basket suggestions).Nodup :=
  nodup_dedupFirst _

/-! ## Helper lemmas: the fallback ordering -/

theorem lex4Le_total (a b : Int × Int × Int × Int) : lex4Le a b ∨ lex4Le b a := by
  unfold lex4Le; omega

theorem lex4Le_trans {a b c : Int × Int × Int × Int}
    (h₁ : lex4Le a b) (h₂ : lex4Le b c) : lex4Le a c := by
  unfold lex4Le at *; omega

instance : IsTotal Product fbLE := ⟨fun p q => lex4Le_total (fbKey q) (fbKey p)⟩

instance : IsTrans Product fbLE := ⟨fun _ _ _ h₁ h₂ => lex4Le_trans h₂ h₁⟩

theorem orderByFallback_mem (l : List Product) (p : Product) :
    p ∈ orderByFallback l ↔ p ∈ l :=
  (List.perm_insertionSort fbLE l).mem_iff

theorem orderByFallback_sorted (l : List Product) :
    (orderByFallback l).Pairwise fbLE :=
  List.sorted_insertionSort fbLE l

/-- SKU lists survive sorting up to permutation, so their `Nodup` transfers. -/
theorem orderByFallback_sku_nodup {l : List Product}
    (h : (l.map Product.sku).Nodup) :
    ((orderByFallback l).map Product.sku).Nodup :=
  (((List.perm_insertionSort fbLE l).map Product.sku).nodup_iff).mpr h

/-- SKU `Nodup` restricted to a sublist of the table. -/
theorem sku_nodup_of_sublist {db l : List Product}
    (h : l.Sublist db) (hdb : (db.map Product.sku).Nodup) :
    (l.map Product.sku).Nodup :=
  List.Nodup.sublist (h.map Product.sku) hdb

/-! ## Helper lemmas: the category-aware fallback -/

theorem dedupFirst_ne_nil {α : Type} [DecidableEq α] {l : List α}
    (h : l ≠ []) : dedupFirst l ≠ [] := by
  match l with
  | [] => exact absurd rfl h
  | a :: rest => simp [dedupFirst, dedupFirstAux]

/-- Membership in the base fallback queryset
`Product.objects.exclude(sku__in=basket_skus).filter(is_active=True)`. -/
theorem mem_active_queryset {db : List Product} {skus : List String}
    {p : Product} :
    p ∈ db.filter (fun q => !skus.contains q.sku && q.is_active) ↔
      p ∈ db ∧ p.is_active = true ∧ p.sku ∉ skus := by
  simp only [List.mem_filter, Bool.and_eq_true, Bool.not_eq_true']
  constructor
  · rintro ⟨h1, h2, h3⟩
    exact ⟨h1, h3, by simpa using h2⟩
  · rintro ⟨h1, h2, h3⟩
    exact ⟨h1, by simpa using h3, h2⟩

/-- With no context products the fallback is the top of the fallback-ordered
active queryset. -/
theorem fallback_no_ctx_eq (db : List Product) (skus : List String)
    (limit : Nat) :
    fallback_association_recommendations db skus limit [] =
      (orderByFallback
        (db.filter (fun p => !skus.contains p.sku && p.is_active))).take limit :=
  rfl

/-- With context products the fallback splits into a prefix drawn from the
context categories followed by a supplement from the other categories; both
parts are ordered, only needed supplements appear, at most `limit` products
are returned, and SKUs stay unique when the table's are. -/
theorem fallback_ctx_shape (db : List Product) (skus : List String)
    (limit : Nat) (ctx : List Product) (hctx : ctx ≠ []) :
    ∃ A B : List Product,
      fallback_association_recommendations db skus limit ctx = A ++ B ∧
      (∀ p ∈ A, p ∈ db ∧ p.is_active = true ∧ p.sku ∉ skus ∧
        p.categoryId ∈ ctx.map Product.categoryId) ∧
      (∀ p ∈ B, p ∈ db ∧ p.is_active = true ∧ p.sku ∉ skus ∧
        p.categoryId ∉ ctx.map Product.categoryId ∧ p.sku ∉ A.map Product.sku) ∧
      A.Pairwise fbLE ∧ B.Pairwise fbLE ∧
      (B ≠ [] → A.length < limit) ∧
      (A ++ B).length ≤ limit ∧
      ((db.map Product.sku).Nodup → ((A ++ B).map Product.sku).Nodup) := by
  have hemp : ctx.isEmpty = false := by
    simpa [List.isEmpty_iff] using hctx
  have hcats : (dedupFirst (ctx.map (fun q => q.categoryId))).isEmpty = false := by
    have : ctx.map (fun q => q.categoryId) ≠ [] := by
      simpa using hctx
    simpa [List.isEmpty_iff] using dedupFirst_ne_nil this
  have heq : fallback_association_recommendations db skus limit ctx =
      (if limit ≤ ((orderByFallback
          ((db.filter (fun p => !skus.contains p.sku && p.is_active)).filter
            (fun p => (dedupFirst (ctx.map (fun q => q.categoryId))).contains
              p.categoryId))).take limit).length
       then (orderByFallback
          ((db.filter (fun p => !skus.contains p.sku && p.is_active)).filter
            (fun p => (dedupFirst (ctx.map (fun q => q.categoryId))).contains
              p.categoryId))).take limit
       else ((orderByFallback
          ((db.filter (fun p => !skus.contains p.sku && p.is_active)).filter
            (fun p => (dedupFirst (ctx.map (fun q => q.categoryId))).contains
              p.categoryId))).take limit ++
          (orderByFallback (db.filter (fun p =>
            !(skus ++ ((orderByFallback
              ((db.filter (fun q => !skus.contains q.sku && q.is_active)).filter
                (fun q => (dedupFirst (ctx.map (fun q => q.categoryId))).contains
                  q.categoryId))).take limit).map Product.sku).contains p.sku &&
            !(dedupFirst (ctx.map (fun q => q.categoryId))).contains p.categoryId &&
            p.is_active))).take (limit - ((orderByFallback
              ((db.filter (fun q => !skus.contains q.sku && q.is_active)).filter
                (fun q => (dedupFirst (ctx.map (fun q => q.categoryId))).contains
                  q.categoryId))).take limit).length)).take limit) := by
    simp only [fallback_association_recommendations, hemp, hcats,
      Bool.not_false, if_true]
  set cats := dedupFirst (ctx.map (fun q => q.categoryId)) with hcatsdef
  set P := (orderByFallback
      ((db.filter (fun p => !skus.contains p.sku && p.is_active)).filter
        (fun p => cats.contains p.categoryId))).take limit with hPdef
  set O := (orderByFallback (db.filter (fun p =>
      !(skus ++ P.map Product.sku).contains p.sku &&
      !cats.contains p.categoryId && p.is_active))).take (limit - P.length)
    with hOdef
  have hPlen : P.length ≤ limit := List.length_take_le _ _
  have hOlen : O.length ≤ limit - P.length := List.length_take_le _ _
  have hPmem : ∀ p ∈ P, p ∈ db ∧ p.is_active = true ∧ p.sku ∉ skus ∧
      p.categoryId ∈ ctx.map Product.categoryId := by
    intro p hp
    have hp1 := List.take_subset _ _ hp
    rw [orderByFallback_mem, List.mem_filter] at hp1
    obtain ⟨hq, hcat⟩ := hp1
    obtain ⟨h1, h2, h3⟩ := mem_active_queryset.mp hq
    refine ⟨h1, h2, h3, ?_⟩
    have : p.categoryId ∈ cats := by simpa using hcat
    rw [hcatsdef, mem_dedupFirst] at this
    simpa using this
  have hPsorted : P.Pairwise fbLE :=
    List.Pairwise.sublist (List.take_sublist _ _) (orderByFallback_sorted _)
  have hPnodup : (db.map Product.sku).Nodup → (P.map Product.sku).Nodup := by
    intro hdb
    have h1 : ((db.filter (fun p => !skus.contains p.sku && p.is_active)).filter
        (fun p => cats.contains p.categoryId)).Sublist db :=
      ((List.filter_sublist _).trans (List.filter_sublist _))
    have h2 := orderByFallback_sku_nodup (sku_nodup_of_sublist h1 hdb)
    rw [hPdef, List.map_take]
    exact List.Nodup.sublist (List.take_sublist _ _) h2
  by_cases hl : limit ≤ P.length
  · refine ⟨P, [], by rw [heq, if_pos hl, List.append_nil], hPmem,
      by simp, hPsorted, List.Pairwise.nil, by simp, ?_, ?_⟩
    · simpa using hPlen
    · intro hdb; simpa using hPnodup hdb
  · have hOmem : ∀ p ∈ O, p ∈ db ∧ p.is_active = true ∧ p.sku ∉ skus ∧
        p.categoryId ∉ ctx.map Product.categoryId ∧ p.sku ∉ P.map Product.sku := by
      intro p hp
      have hp1 := List.take_subset _ _ hp
      rw [orderByFallback_mem, List.mem_filter] at hp1
      obtain ⟨h1, h2⟩ := hp1
      simp only [Bool.and_eq_true, Bool.not_eq_true'] at h2
      obtain ⟨⟨hsku, hcat⟩, hact⟩ := h2
      have hsku' : p.sku ∉ skus ++ P.map Product.sku := by simpa using hsku
      have hcat' : p.categoryId ∉ cats := by simpa using hcat
      rw [hcatsdef, mem_dedupFirst] at hcat'
      refine ⟨h1, hact, fun hc => hsku' (List.mem_append_left _ hc), ?_,
        fun hc => hsku' (List.mem_append_right _ hc)⟩
      simpa using hcat'
    have hOsorted : O.Pairwise fbLE :=
      List.Pairwise.sublist (List.take_sublist _ _) (orderByFallback_sorted _)
    have hfin : (P ++ O).take limit = P ++ O := by
      apply List.take_of_length_le
      rw [List.length_append]
      omega
    refine ⟨P, O, by rw [heq, if_neg hl]; exact hfin, hPmem, hOmem,
      hPsorted, hOsorted, fun _ => by omega, ?_, ?_⟩
    · rw [List.length_append]; omega
    · intro hdb
      rw [List.map_append]
      refine List.Nodup.append (hPnodup hdb) ?_ ?_
      · have h1 : (db.filter (fun p =>
            !(skus ++ P.map Product.sku).contains p.sku &&
            !cats.contains p.categoryId && p.is_active)).Sublist db :=
          List.filter_sublist _
        have h2 := orderByFallback_sku_nodup (sku_nodup_of_sublist h1 hdb)
        rw [List.map_take]
        exact List.Nodup.sublist (List.take_sublist _ _) h2
      · intro a haP haO
        obtain ⟨q, hqO, rfl⟩ := List.mem_map.mp haO
        exact (hOmem q hqO).2.2.2.2 haP

/-- The facts about the fallback needed for the recommendation guarantees,
uniformly in the context products. -/
theorem fallback_facts (db : List Product) (skus : List String) (limit : Nat)
    (ctx : List Product) :
    (∀ p ∈ fallback_association_recommendations db skus limit ctx,
      p ∈ db ∧ p.is_active = true ∧ p.sku ∉ skus) ∧
    (fallback_association_recommendations db skus limit ctx).length ≤ limit ∧
    ((db.map Product.sku).Nodup →
      ((fallback_association_recommendations db skus limit ctx).map
        Product.sku).Nodup) := by
  match ctx with
  | [] =>
    rw [fallback_no_ctx_eq]
    refine ⟨fun p hp => ?_, List.length_take_le _ _, fun hdb => ?_⟩
    · have hp1 := List.take_subset _ _ hp
      rw [orderByFallback_mem] at hp1
      exact mem_active_queryset.mp hp1
    · have h2 := orderByFallback_sku_nodup (sku_nodup_of_sublist
        (@List.filter_sublist _ (fun p => !skus.contains p.sku && p.is_active) db)
        hdb)
      rw [List.map_take]
      exact List.Nodup.sublist (List.take_sublist _ _) h2
  | c :: ctx' =>
    obtain ⟨A, B, heq, hA, hB, _, _, _, hlen, hnodup⟩ :=
      fallback_ctx_shape db skus limit (c :: ctx') (by simp)
    rw [heq]
    refine ⟨fun p hp => ?_, hlen, hnodup⟩
    rcases List.mem_append.mp hp with h | h
    · exact ⟨(hA p h).1, (hA p h).2.1, (hA p h).2.2.1⟩
    · exact ⟨(hB p h).1, (hB p h).2.1, (hB p h).2.2.1⟩

/-! ## Helper lemmas: the supplement loop -/

/-- The supplement loop only ever appends fallback products whose SKU is not
among the pre-computed existing SKUs. -/
theorem supplementLoop_shape :
    ∀ (fb : List Product) (existing : List String) (limit : Nat)
      (acc : List Product),
      ∃ r, supplementLoop existing limit acc fb = acc ++ r ∧
        ∀ p ∈ r, p ∈ fb ∧ p.sku ∉ existing
  | [], existing, limit, acc => ⟨[], by simp [supplementLoop], by simp⟩
  | p :: rest, existing, limit, acc => by
    simp only [supplementLoop]
    by_cases hp : existing.contains p.sku = true
    · rw [if_pos hp]
      obtain ⟨r, hr, hmem⟩ := supplementLoop_shape rest existing limit acc
      exact ⟨r, hr, fun q hq =>
        ⟨List.mem_cons_of_mem _ (hmem q hq).1, (hmem q hq).2⟩⟩
    · rw [if_neg hp]
      have hpsku : p.sku ∉ existing := by simpa using hp
      by_cases hlim : limit ≤ (acc ++ [p]).length
      · rw [if_pos hlim]
        refine ⟨[p], rfl, fun q hq => ?_⟩
        rcases List.mem_singleton.mp hq with rfl
        exact ⟨List.mem_cons_self _ _, hpsku⟩
      · rw [if_neg hlim]
        obtain ⟨r, hr, hmem⟩ := supplementLoop_shape rest existing limit (acc ++ [p])
        refine ⟨p :: r, by rw [hr, List.append_assoc]; rfl, fun q hq => ?_⟩
        rcases List.mem_cons.mp hq with rfl | hq'
        · exact ⟨List.mem_cons_self _ _, hpsku⟩
        · exact ⟨List.mem_cons_of_mem _ (hmem q hq').1, (hmem q hq').2⟩

/-- The supplement loop preserves SKU uniqueness. -/
theorem supplementLoop_sku_nodup :
    ∀ (fb : List Product) (existing : List String) (limit : Nat)
      (acc : List Product),
      (acc.map Product.sku).Nodup → (fb.map Product.sku).Nodup →
      (∀ p ∈ fb, p.sku ∉ existing → p.sku ∉ acc.map Product.sku) →
      ((supplementLoop existing limit acc fb).map Product.sku).Nodup
  | [], existing, limit, acc, hacc, _, _ => by
    simpa [supplementLoop] using hacc
  | p :: rest, existing, limit, acc, hacc, hfb, hinv => by
    simp only [supplementLoop]
    have hfbtail : (rest.map Product.sku).Nodup := (List.nodup_cons.mp hfb).2
    have hfbhead : p.sku ∉ rest.map Product.sku := (List.nodup_cons.mp hfb).1
    by_cases hp : existing.contains p.sku = true
    · rw [if_pos hp]
      exact supplementLoop_sku_nodup rest existing limit acc hacc hfbtail
        (fun q hq => hinv q (List.mem_cons_of_mem _ hq))
    · rw [if_neg hp]
      have hpsku : p.sku ∉ existing := by simpa using hp
      have hpacc : p.sku ∉ acc.map Product.sku :=
        hinv p (List.mem_cons_self _ _) hpsku
      have hacc' : ((acc ++ [p]).map Product.sku).Nodup := by
        rw [List.map_append]
        exact List.Nodup.append hacc (List.nodup_singleton _)
          (fun a ha hb => by
            rcases List.mem_singleton.mp hb with rfl
            exact hpacc ha)
      by_cases hlim : limit ≤ (acc ++ [p]).length
      · rw [if_pos hlim]; exact hacc'
      · rw [if_neg hlim]
        refine supplementLoop_sku_nodup rest existing limit (acc ++ [p]) hacc'
          hfbtail (fun q hq hqex => ?_)
        rw [List.map_append]
        intro hc
        rcases List.mem_append.mp hc with hc | hc
        · exact hinv q (List.mem_cons_of_mem _ hq) hqex hc
        · rcases List.mem_singleton.mp hc with hc
          exact hfbhead (hc ▸ List.mem_map_of_mem Product.sku hq)

/-! ## Helper lemmas: unfolding `recommend_associated_products` -/

/-- With no rules artifact or no usable basket SKUs, the recommendation is
exactly the category-aware fallback on the cleaned SKUs. -/
theorem recommend_fallback_eq (db : List Product) (rules? : Option (List Rule))
    (bsk : List String) (limit : Nat) (ctx : List Product)
    (h : rules? = Option.none ∨ cleanSkus bsk = []) :
    recommend_associated_products db rules? bsk limit ctx =
      fallback_association_recommendations db (cleanSkus bsk) limit ctx := by
  rcases h with rfl | h
  · by_cases hc : (cleanSkus bsk).isEmpty = true <;>
      simp [recommend_associated_products, hc]
  · simp [recommend_associated_products, h]

/-- The rules-backed branch of `recommend_associated_products` spelled out. -/
theorem recommend_rules_eq (db : List Product) (rules : List Rule)
    (bsk : List String) (limit : Nat) (ctx : List Product)
    (hne : cleanSkus bsk ≠ []) :
    recommend_associated_products db (some rules) bsk limit ctx =
      (if (List.insertionSort
            (fun p q =>
              skuSortKey (uniqueSuggested (cleanSkus bsk)
                (suggestionsOf rules (cleanSkus bsk))) p.sku ≤
              skuSortKey (uniqueSuggested (cleanSkus bsk)
                (suggestionsOf rules (cleanSkus bsk))) q.sku)
            (db.filter (fun p =>
              (uniqueSuggested (cleanSkus bsk)
                (suggestionsOf rules (cleanSkus bsk))).contains p.sku &&
              p.is_active))).length < limit
       then supplementLoop
          ((List.insertionSort
            (fun p q =>
              skuSortKey (uniqueSuggested (cleanSkus bsk)
                (suggestionsOf rules (cleanSkus bsk))) p.sku ≤
              skuSortKey (uniqueSuggested (cleanSkus bsk)
                (suggestionsOf rules (cleanSkus bsk))) q.sku)
            (db.filter (fun p =>
              (uniqueSuggested (cleanSkus bsk)
                (suggestionsOf rules (cleanSkus bsk))).contains p.sku &&
              p.is_active))).map Product.sku) limit
          (List.insertionSort
            (fun p q =>
              skuSortKey (uniqueSuggested (cleanSkus bsk)
                (suggestionsOf rules (cleanSkus bsk))) p.sku ≤
              skuSortKey (uniqueSuggested (cleanSkus bsk)
                (suggestionsOf rules (cleanSkus bsk))) q.sku)
            (db.filter (fun p =>
              (uniqueSuggested (cleanSkus bsk)
                (suggestionsOf rules (cleanSkus bsk))).contains p.sku &&
              p.is_active)))
          (fallback_association_recommendations db (cleanSkus bsk)
            (limit - (List.insertionSort
              (fun p q =>
                skuSortKey (uniqueSuggested (cleanSkus bsk)
                  (suggestionsOf rules (cleanSkus bsk))) p.sku ≤
                skuSortKey (uniqueSuggested (cleanSkus bsk)
                  (suggestionsOf rules (cleanSkus bsk))) q.sku)
              (db.filter (fun p =>
                (uniqueSuggested (cleanSkus bsk)
                  (suggestionsOf rules (cleanSkus bsk))).contains p.sku &&
                p.is_active))).length) ctx)
       else List.insertionSort
          (fun p q =>
            skuSortKey (uniqueSuggested (cleanSkus bsk)
              (suggestionsOf rules (cleanSkus bsk))) p.sku ≤
            skuSortKey (uniqueSuggested (cleanSkus bsk)
              (suggestionsOf rules (cleanSkus bsk))) q.sku)
          (db.filter (fun p =>
            (uniqueSuggested (cleanSkus bsk)
              (suggestionsOf rules (cleanSkus bsk))).contains p.sku &&
            p.is_active))).take limit := by
  have hc : (cleanSkus bsk).isEmpty = false := by
    simpa [List.isEmpty_iff] using hne
  simp only [recommend_associated_products, hc, Bool.false_eq_true, if_false]

/-! ## C1: basic guarantees of `recommend_associated_products` -/

/-- C1: for every basket SKU list, limit and context list, the
recommendations number at most `limit`, carry pairwise distinct SKUs, avoid
every basket SKU, and are all active products of the table.  The two
hypotheses are the catalog's declared integrity constraints: `sku` is
`unique=True` and never blank. -/
theorem recommend_basic_guarantees (db : List Product)
    (rules? : Option (List Rule)) (basket_skus : List String) (limit : Nat)
    (ctx : List Product) (hdb : (db.map Product.sku).Nodup)
    (hblank : ∀ p ∈ db, p.sku ≠ "") :
    (recommend_associated_products db rules? basket_skus limit ctx).length ≤ limit ∧
    ((recommend_associated_products db rules? basket_skus limit ctx).map
      Product.sku).Nodup ∧
    ∀ p ∈ recommend_associated_products db rules? basket_skus limit ctx,
      p ∈ db ∧ p.is_active = true ∧ p.sku ∉ basket_skus := by
  have hlift : ∀ p : Product, p ∈ db → p.sku ∉ cleanSkus basket_skus →
      p.sku ∉ basket_skus := fun p hpdb hpc hc =>
    hpc ((mem_cleanSkus basket_skus p.sku).mpr ⟨hc, hblank p hpdb⟩)
  by_cases hcase : rules? = Option.none ∨ cleanSkus basket_skus = []
  · rw [recommend_fallback_eq db rules? basket_skus limit ctx hcase]
    obtain ⟨hmem, hlen, hnd⟩ := fallback_facts db (cleanSkus basket_skus) limit ctx
    exact ⟨hlen, hnd hdb, fun p hp =>
      ⟨(hmem p hp).1, (hmem p hp).2.1, hlift p (hmem p hp).1 (hmem p hp).2.2⟩⟩
  · push_neg at hcase
    obtain ⟨hrules, hne⟩ := hcase
    obtain ⟨rules, rfl⟩ := Option.ne_none_iff_exists'.mp hrules
    rw [recommend_rules_eq db rules basket_skus limit ctx hne]
    set U := uniqueSuggested (cleanSkus basket_skus)
      (suggestionsOf rules (cleanSkus basket_skus)) with hUdef
    set fetched := db.filter (fun p => U.contains p.sku && p.is_active)
      with hfetched
    set products := List.insertionSort
      (fun p q => skuSortKey U p.sku ≤ skuSortKey U q.sku) fetched
      with hproducts
    have hfetchsub : fetched.Sublist db := hfetched ▸ List.filter_sublist _
    have hfetchnodup : (fetched.map Product.sku).Nodup :=
      sku_nodup_of_sublist hfetchsub hdb
    have hprodperm : products.Perm fetched := List.perm_insertionSort _ _
    have hprodnodup : (products.map Product.sku).Nodup :=
      ((hprodperm.map Product.sku).nodup_iff).mpr hfetchnodup
    have hprodmem : ∀ p ∈ products, p ∈ db ∧ p.is_active = true ∧
        p.sku ∉ basket_skus := by
      intro p hp
      have hp1 := hprodperm.mem_iff.mp hp
      rw [hfetched, List.mem_filter] at hp1
      obtain ⟨hpdb, hpc⟩ := hp1
      simp only [Bool.and_eq_true] at hpc
      have hpU : p.sku ∈ U := by simpa using hpc.1
      have hpclean : p.sku ∉ cleanSkus basket_skus :=
        ((mem_uniqueSuggested _ _ _).mp (hUdef ▸ hpU)).2.2
      exact ⟨hpdb, hpc.2, hlift p hpdb hpclean⟩
    by_cases hsplit : products.length < limit
    · rw [if_pos hsplit]
      obtain ⟨hfbmem, _, hfbnd⟩ := fallback_facts db (cleanSkus basket_skus)
        (limit - products.length) ctx
      obtain ⟨r, hr, hrmem⟩ := supplementLoop_shape
        (fallback_association_recommendations db (cleanSkus basket_skus)
          (limit - products.length) ctx)
        (products.map Product.sku) limit products
      refine ⟨List.length_take_le _ _, ?_, ?_⟩
      · rw [List.map_take]
        refine List.Nodup.sublist (List.take_sublist _ _) ?_
        exact supplementLoop_sku_nodup _ _ _ _ hprodnodup (hfbnd hdb)
          (fun q _ hq => hq)
      · intro p hp
        have hp1 := List.take_subset _ _ hp
        rw [hr] at hp1
        rcases List.mem_append.mp hp1 with hp2 | hp2
        · exact hprodmem p hp2
        · have hp3 := (hrmem p hp2).1
          exact ⟨(hfbmem p hp3).1, (hfbmem p hp3).2.1,
            hlift p (hfbmem p hp3).1 (hfbmem p hp3).2.2⟩
    · rw [if_neg hsplit]
      refine ⟨List.length_take_le _ _, ?_, ?_⟩
      · rw [List.map_take]
        exact List.Nodup.sublist (List.take_sublist _ _) hprodnodup
      · exact fun p hp => hprodmem p (List.take_subset _ _ hp)

/-- Witness for C1 at a concrete table, rules and basket. -/
theorem recommend_basic_guarantees_witness :
    (recommend_associated_products
      [⟨1, "X", 1, 100, some 40, 5, true, 1⟩, ⟨2, "Y", 1, 100, some 50, 5, true, 2⟩,
       ⟨3, "Z", 2, 100, some 30, 5, true, 3⟩, ⟨4, "A", 2, 100, some 10, 5, true, 4⟩]
      (some [⟨["A"], ["X", "Y"], 2⟩, ⟨["A"], ["Z"], 5⟩])
      ["A", "A", ""] 2 []).length ≤ 2 :=
  (recommend_basic_guarantees
    [⟨1, "X", 1, 100, some 40, 5, true, 1⟩, ⟨2, "Y", 1, 100, some 50, 5, true, 2⟩,
     ⟨3, "Z", 2, 100, some 30, 5, true, 3⟩, ⟨4, "A", 2, 100, some 10, 5, true, 4⟩]
    (some [⟨["A"], ["X", "Y"], 2⟩, ⟨["A"], ["Z"], 5⟩])
    ["A", "A", ""] 2 [] (by decide) (by decide)).1

/-! ## C4: the category-aware fallback dispatch and its ordering -/

/-- C4: with no rules artifact or no usable basket SKUs the recommendation
is the category-aware fallback: active products outside the basket; with no
context products, the top products under the descending
rating/stock/recency order; with context products, first a prefix from the
context products' categories and then, only when fewer than `limit` were
found, a supplement from the other categories, both under the same order. -/
theorem recommend_fallback_spec (db : List Product)
    (rules? : Option (List Rule)) (bsk : List String) (limit : Nat)
    (ctx : List Product)
    (h : rules? = Option.none ∨ cleanSkus bsk = []) :
    recommend_associated_products db rules? bsk limit ctx =
      fallback_association_recommendations db (cleanSkus bsk) limit ctx ∧
    (∀ p ∈ fallback_association_recommendations db (cleanSkus bsk) limit ctx,
      p ∈ db ∧ p.is_active = true ∧ p.sku ∉ cleanSkus bsk) ∧
    (fallback_association_recommendations db (cleanSkus bsk) limit ctx).length ≤
      limit ∧
    (ctx = [] →
      fallback_association_recommendations db (cleanSkus bsk) limit ctx =
        (orderByFallback (db.filter (fun p =>
          !(cleanSkus bsk).contains p.sku && p.is_active))).take limit ∧
      (fallback_association_recommendations db (cleanSkus bsk) limit ctx).Pairwise
        fbLE) ∧
    (ctx ≠ [] → ∃ A B : List Product,
      fallback_association_recommendations db (cleanSkus bsk) limit ctx =
        A ++ B ∧
      (∀ p ∈ A, p ∈ db ∧ p.is_active = true ∧ p.sku ∉ cleanSkus bsk ∧
        p.categoryId ∈ ctx.map Product.categoryId) ∧
      (∀ p ∈ B, p ∈ db ∧ p.is_active = true ∧ p.sku ∉ cleanSkus bsk ∧
        p.categoryId ∉ ctx.map Product.categoryId) ∧
      A.Pairwise fbLE ∧ B.Pairwise fbLE ∧
      (B ≠ [] → A.length < limit)) := by
  obtain ⟨hmem, hlen, _⟩ := fallback_facts db (cleanSkus bsk) limit ctx
  refine ⟨recommend_fallback_eq db rules? bsk limit ctx h, hmem, hlen,
    fun hctx => ?_, fun hctx => ?_⟩
  · subst hctx
    exact ⟨fallback_no_ctx_eq db (cleanSkus bsk) limit,
      by rw [fallback_no_ctx_eq]
         exact List.Pairwise.sublist (List.take_sublist _ _)
           (orderByFallback_sorted _)⟩
  · obtain ⟨A, B, heq, hA, hB, hAs, hBs, honly, _, _⟩ :=
      fallback_ctx_shape db (cleanSkus bsk) limit ctx hctx
    exact ⟨A, B, heq, hA,
      fun p hp => ⟨(hB p hp).1, (hB p hp).2.1, (hB p hp).2.2.1,
        (hB p hp).2.2.2.1⟩, hAs, hBs, honly⟩

/-- Witness for C4 at a concrete table with a missing rules artifact and a
context product. -/
theorem recommend_fallback_spec_witness :
    recommend_associated_products
      [⟨1, "X", 1, 100, some 40, 5, true, 1⟩, ⟨2, "Y", 1, 100, some 50, 5, true, 2⟩,
       ⟨3, "Z", 2, 100, some 30, 5, true, 3⟩, ⟨4, "A", 2, 100, some 10, 5, true, 4⟩]
      Option.none ["A"] 2 [⟨4, "A", 2, 100, some 10, 5, true, 4⟩] =
    fallback_association_recommendations
      [⟨1, "X", 1, 100, some 40, 5, true, 1⟩, ⟨2, "Y", 1, 100, some 50, 5, true, 2⟩,
       ⟨3, "Z", 2, 100, some 30, 5, true, 3⟩, ⟨4, "A", 2, 100, some 10, 5, true, 4⟩]
      (cleanSkus ["A"]) 2 [⟨4, "A", 2, 100, some 10, 5, true, 4⟩] :=
  (recommend_fallback_spec
    [⟨1, "X", 1, 100, some 40, 5, true, 1⟩, ⟨2, "Y", 1, 100, some 50, 5, true, 2⟩,
     ⟨3, "Z", 2, 100, some 30, 5, true, 3⟩, ⟨4, "A", 2, 100, some 10, 5, true, 4⟩]
    Option.none ["A"] 2 [⟨4, "A", 2, 100, some 10, 5, true, 4⟩]
    (Or.inl rfl)).1

/-! ## Helper lemmas: the suggestion-order sort key -/

theorem indexOf?_some_of_mem {s : String} :
    ∀ {U : List String}, s ∈ U → ∃ k, List.indexOf? s U = some k
  | [], h => absurd h (List.not_mem_nil s)
  | u :: U', h => by
    rw [List.indexOf?_cons]
    by_cases hu : (u == s) = true
    · exact ⟨0, by rw [if_pos hu]⟩
    · have hs' : s ∈ U' := by
        rcases List.mem_cons.mp h with rfl | h2
        · exact absurd (by simp) hu
        · exact h2
      obtain ⟨k, hk⟩ := indexOf?_some_of_mem hs'
      exact ⟨k + 1, by rw [if_neg hu, hk]; rfl⟩

theorem skuSortKey_cons_self (s : String) (U : List String) :
    skuSortKey (s :: U) s = 0 := by
  simp [skuSortKey, List.indexOf?_cons]

theorem skuSortKey_cons_of_ne {u s : String} (U : List String)
    (hne : u ≠ s) (hs : s ∈ U) :
    skuSortKey (u :: U) s = skuSortKey U s + 1 := by
  obtain ⟨k, hk⟩ := indexOf?_some_of_mem hs
  have hu : (u == s) = false := by simp [hne]
  simp [skuSortKey, List.indexOf?_cons, hu, hk]

/-- Along a duplicate-free SKU list, the sort key is strictly increasing. -/
theorem pairwise_skuSortKey :
    ∀ {U : List String}, U.Nodup →
      U.Pairwise (fun s t => skuSortKey U s < skuSortKey U t)
  | [], _ => List.Pairwise.nil
  | u :: U', hU => by
    have hu : u ∉ U' := (List.nodup_cons.mp hU).1
    have hU' : U'.Nodup := (List.nodup_cons.mp hU).2
    rw [List.pairwise_cons]
    constructor
    · intro t ht
      rw [skuSortKey_cons_self,
        skuSortKey_cons_of_ne U' (fun hc => hu (by rw [hc]; exact ht)) ht]
      omega
    · refine List.Pairwise.imp_of_mem (fun {s} {t} hs ht hlt => ?_)
        (pairwise_skuSortKey hU')
      rw [skuSortKey_cons_of_ne U' (fun hc => hu (by rw [hc]; exact hs)) hs,
        skuSortKey_cons_of_ne U' (fun hc => hu (by rw [hc]; exact ht)) ht]
      omega

theorem skuSortKey_inj {U : List String} (hU : U.Nodup) {s t : String}
    (hs : s ∈ U) (ht : t ∈ U) (h : skuSortKey U s = skuSortKey U t) :
    s = t := by
  by_contra hne
  have hsym : Symmetric (fun a b : String => skuSortKey U a ≠ skuSortKey U b) :=
    fun a b hab hc => hab hc.symm
  exact List.Pairwise.forall hsym
    (List.Pairwise.imp (fun hlt => Nat.ne_of_lt hlt) (pairwise_skuSortKey hU))
    hs ht hne h

/-! ## Helper lemmas: the canonical suggestion-ordered product list -/

/-- Erasing an element the predicate rejects does not change `find?`. -/
theorem find?_erase_of_pred_false {α : Type} [BEq α] [LawfulBEq α] :
    ∀ (l : List α) (a : α) (pred : α → Bool), pred a = false →
      (l.erase a).find? pred = l.find? pred
  | [], _, _, _ => rfl
  | x :: xs, a, pred, h => by
    rw [List.erase_cons]
    by_cases hx : (x == a) = true
    · rw [if_pos hx]
      have hpx : pred x = false := (eq_of_beq hx) ▸ h
      rw [List.find?_cons_of_neg _ (by simp [hpx])]
    · rw [if_neg hx]
      by_cases hpx : pred x = true
      · rw [List.find?_cons_of_pos _ hpx, List.find?_cons_of_pos _ hpx]
      · rw [List.find?_cons_of_neg _ hpx, List.find?_cons_of_neg _ hpx]
        exact find?_erase_of_pred_false xs a pred h

/-- Looking every SKU of `U` up in a table whose rows all carry a SKU of `U`
enumerates the table, up to permutation. -/
theorem filterMap_find?_perm :
    ∀ (U : List String) (l : List Product), U.Nodup →
      (l.map Product.sku).Nodup → (∀ p ∈ l, p.sku ∈ U) →
      (U.filterMap (fun s => l.find? (fun p => p.sku == s))).Perm l
  | [], l, _, _, hmem => by
    have hnil : l = [] := by
      cases l with
      | nil => rfl
      | cons p t => exact absurd (hmem p (List.mem_cons_self p t)) (List.not_mem_nil _)
    subst hnil
    simp
  | s :: U', l, hU, hl, hmem => by
    have hU'nodup : U'.Nodup := (List.nodup_cons.mp hU).2
    have hsU' : s ∉ U' := (List.nodup_cons.mp hU).1
    rcases hfind : l.find? (fun p => p.sku == s) with _ | p₀
    · simp only [List.filterMap_cons, hfind]
      have hmem' : ∀ p ∈ l, p.sku ∈ U' := by
        intro p hp
        rcases List.mem_cons.mp (hmem p hp) with h2 | h2
        · exfalso
          rw [List.find?_eq_none] at hfind
          exact hfind p hp (by simp [h2])
        · exact h2
      exact filterMap_find?_perm U' l hU'nodup hl hmem'
    · simp only [List.filterMap_cons, hfind]
      have hp₀l : p₀ ∈ l := List.mem_of_find?_eq_some hfind
      have hp₀s : p₀.sku = s := by simpa using List.find?_some hfind
      have hlnodup : l.Nodup := List.Nodup.of_map Product.sku hl
      have hperm1 : l.Perm (p₀ :: l.erase p₀) := List.perm_cons_erase hp₀l
      have hcongr : ∀ s' ∈ U',
          l.find? (fun p => p.sku == s') =
            (l.erase p₀).find? (fun p => p.sku == s') := by
        intro s' hs'
        have hss' : s ≠ s' := fun hc => hsU' (hc ▸ hs')
        have hps' : (fun p : Product => p.sku == s') p₀ = false := by
          simp [hp₀s, hss']
        exact (find?_erase_of_pred_false l p₀ _ hps').symm
      rw [List.filterMap_congr hcongr]
      have hl' : ((l.erase p₀).map Product.sku).Nodup :=
        List.Nodup.sublist ((List.erase_sublist p₀ l).map Product.sku) hl
      have hmem' : ∀ p ∈ l.erase p₀, p.sku ∈ U' := by
        intro p hp
        have hpl : p ∈ l := (List.erase_sublist p₀ l).subset hp
        have hne : p ≠ p₀ := (hlnodup.mem_erase_iff.mp hp).1
        rcases List.mem_cons.mp (hmem p hpl) with h2 | h2
        · exact absurd
            (List.inj_on_of_nodup_map hl hpl hp₀l (by rw [h2, hp₀s])) hne
        · exact h2
      exact (List.Perm.cons p₀
        (filterMap_find?_perm U' (l.erase p₀) hU'nodup hl' hmem')).trans
        hperm1.symm

/-- The canonical suggestion-ordered list has strictly increasing keys. -/
theorem pairwise_key_filterMap (U : List String) (l : List Product)
    (hU : U.Nodup) :
    (U.filterMap (fun s => l.find? (fun p => p.sku == s))).Pairwise
      (fun p q => skuSortKey U p.sku < skuSortKey U q.sku) := by
  rw [List.pairwise_filterMap]
  refine List.Pairwise.imp_of_mem (fun {s} {t} hs ht hlt => ?_)
    (pairwise_skuSortKey hU)
  intro p hp q hq
  have hps : p.sku = s := by
    simpa using List.find?_some (Option.mem_def.mp hp)
  have hqt : q.sku = t := by
    simpa using List.find?_some (Option.mem_def.mp hq)
  rw [hps, hqt]
  exact hlt

/-- Sorting a duplicate-free-SKU table whose SKUs all occur in `U` by the
`sku_order` key is exactly looking each SKU of `U` up in the table. -/
theorem insertionSort_skuKey_eq (U : List String) (l : List Product)
    (hU : U.Nodup) (hl : (l.map Product.sku).Nodup)
    (hmem : ∀ p ∈ l, p.sku ∈ U) :
    List.insertionSort
        (fun p q => skuSortKey U p.sku ≤ skuSortKey U q.sku) l =
      U.filterMap (fun s => l.find? (fun p => p.sku == s)) := by
  haveI hTot : IsTotal Product
      (fun p q => skuSortKey U p.sku ≤ skuSortKey U q.sku) :=
    ⟨fun a b => Nat.le_total _ _⟩
  haveI hTrans : IsTrans Product
      (fun p q => skuSortKey U p.sku ≤ skuSortKey U q.sku) :=
    ⟨fun _ _ _ => Nat.le_trans⟩
  haveI hAnti : IsAntisymm Product
      (fun p q => skuSortKey U p.sku < skuSortKey U q.sku ∨ p = q) := by
    refine ⟨fun a b h1 h2 => ?_⟩
    rcases h1 with h1 | h1
    · rcases h2 with h2 | h2
      · omega
      · exact h2.symm
    · exact h1
  have hsortperm := List.perm_insertionSort
    (fun p q => skuSortKey U p.sku ≤ skuSortKey U q.sku) l
  have hperm : (List.insertionSort
      (fun p q => skuSortKey U p.sku ≤ skuSortKey U q.sku) l).Perm
      (U.filterMap (fun s => l.find? (fun p => p.sku == s))) :=
    hsortperm.trans (filterMap_find?_perm U l hU hl hmem).symm
  have hP1 := List.sorted_insertionSort
    (fun p q => skuSortKey U p.sku ≤ skuSortKey U q.sku) l
  have hnodupsorted : ((List.insertionSort
      (fun p q => skuSortKey U p.sku ≤ skuSortKey U q.sku) l).map
        Product.sku).Nodup :=
    ((hsortperm.map Product.sku).nodup_iff).mpr hl
  have hP2 : (List.insertionSort
      (fun p q => skuSortKey U p.sku ≤ skuSortKey U q.sku) l).Pairwise
      (fun p q => p.sku ≠ q.sku) := List.pairwise_map.mp hnodupsorted
  have hmem' : ∀ p ∈ List.insertionSort
      (fun p q => skuSortKey U p.sku ≤ skuSortKey U q.sku) l, p.sku ∈ U :=
    fun p hp => hmem p (hsortperm.mem_iff.mp hp)
  have hs1 : (List.insertionSort
      (fun p q => skuSortKey U p.sku ≤ skuSortKey U q.sku) l).Pairwise
      (fun p q => skuSortKey U p.sku < skuSortKey U q.sku ∨ p = q) := by
    refine List.Pairwise.imp_of_mem (fun {p} {q} hp hq h12 => ?_)
      (List.Pairwise.and hP1 hP2)
    exact Or.inl (Nat.lt_of_le_of_ne h12.1
      (fun hc => h12.2 (skuSortKey_inj hU (hmem' p hp) (hmem' q hq) hc)))
  have hs2 : (U.filterMap (fun s => l.find? (fun p => p.sku == s))).Pairwise
      (fun p q => skuSortKey U p.sku < skuSortKey U q.sku ∨ p = q) :=
    List.Pairwise.imp (fun h => Or.inl h) (pairwise_key_filterMap U l hU)
  exact List.eq_of_perm_of_sorted hperm hs1 hs2

/-! ## C3: rule-derived recommendations follow the confidence order -/

/-- C3: with the rules loaded and a usable basket, the suggested SKUs are,
for each distinct truthy basket SKU, the consequents of its top five
matching rules by descending confidence (`suggestionsOf`), de-duplicated in
first-occurrence order into `U = uniqueSuggested …`; the returned products
preserve that order — any two rule-derived products appear in strictly
increasing suggestion position — and when all suggested active products fit
within `limit`, the returned list is exactly the suggestion-ordered lookup
of the product table followed only by non-rule-derived supplements. -/
theorem recommend_rule_order (db : List Product) (rules : List Rule)
    (bsk : List String) (limit : Nat) (ctx : List Product) (U : List String)
    (hdb : (db.map Product.sku).Nodup) (hne : cleanSkus bsk ≠ [])
    (hU : U = uniqueSuggested (cleanSkus bsk)
      (suggestionsOf rules (cleanSkus bsk))) :
    (recommend_associated_products db (some rules) bsk limit ctx).Pairwise
      (fun p q => p.sku ∈ U → q.sku ∈ U →
        skuSortKey U p.sku < skuSortKey U q.sku) ∧
    ((db.filter (fun p => U.contains p.sku && p.is_active)).length ≤ limit →
      ∃ B, recommend_associated_products db (some rules) bsk limit ctx =
        U.filterMap (fun s =>
          (db.filter (fun p => U.contains p.sku && p.is_active)).find?
            (fun p => p.sku == s)) ++ B ∧
        ∀ p ∈ B, p.sku ∉ U) := by
  subst hU
  rw [recommend_rules_eq db rules bsk limit ctx hne]
  set U := uniqueSuggested (cleanSkus bsk) (suggestionsOf rules (cleanSkus bsk))
    with hUdef
  set fetched := db.filter (fun p => U.contains p.sku && p.is_active)
    with hfetched
  set products := List.insertionSort
    (fun p q => skuSortKey U p.sku ≤ skuSortKey U q.sku) fetched
    with hproducts
  have hUnodup : U.Nodup := hUdef ▸ nodup_uniqueSuggested _ _
  have hfetchsub : fetched.Sublist db := hfetched ▸ List.filter_sublist _
  have hfetchnodup : (fetched.map Product.sku).Nodup :=
    sku_nodup_of_sublist hfetchsub hdb
  have hfetchmem : ∀ p ∈ fetched, p.sku ∈ U := by
    intro p hp
    rw [hfetched, List.mem_filter] at hp
    have := hp.2
    simp only [Bool.and_eq_true] at this
    simpa using this.1
  have hprodperm : products.Perm fetched :=
    hproducts ▸ List.perm_insertionSort _ _
  have hML : products =
      U.filterMap (fun s => fetched.find? (fun p => p.sku == s)) :=
    hproducts ▸ insertionSort_skuKey_eq U fetched hUnodup hfetchnodup hfetchmem
  have hlenprod : products.length = fetched.length := hprodperm.length_eq
  have hPairKey : products.Pairwise
      (fun p q => skuSortKey U p.sku < skuSortKey U q.sku) :=
    hML ▸ pairwise_key_filterMap U fetched hUnodup
  have hPairR : products.Pairwise
      (fun p q => p.sku ∈ U → q.sku ∈ U →
        skuSortKey U p.sku < skuSortKey U q.sku) :=
    List.Pairwise.imp (fun h _ _ => h) hPairKey
  by_cases hsplit : products.length < limit
  · rw [if_pos hsplit]
    obtain ⟨r, hr, hrmem⟩ := supplementLoop_shape
      (fallback_association_recommendations db (cleanSkus bsk)
        (limit - products.length) ctx)
      (products.map Product.sku) limit products
    have hrnotU : ∀ p ∈ r, p.sku ∉ U := by
      intro p hp hpU
      obtain ⟨hpfb, hpnot⟩ := hrmem p hp
      obtain ⟨hpdb, hpact, _⟩ := (fallback_facts db (cleanSkus bsk)
        (limit - products.length) ctx).1 p hpfb
      have hpf : p ∈ fetched := by
        rw [hfetched, List.mem_filter]
        exact ⟨hpdb, by simp [hpU, hpact]⟩
      exact hpnot (List.mem_map_of_mem Product.sku (hprodperm.mem_iff.mpr hpf))
    have hPairAll : (products ++ r).Pairwise
        (fun p q => p.sku ∈ U → q.sku ∈ U →
          skuSortKey U p.sku < skuSortKey U q.sku) := by
      rw [List.pairwise_append]
      refine ⟨hPairR, ?_, ?_⟩
      · exact List.Pairwise.imp_of_mem
          (fun {p} {q} hp _ _ hpU _ => absurd hpU (hrnotU p hp))
          (List.pairwise_of_forall (fun _ _ => trivial))
      · exact fun a _ b hb _ hbU => absurd hbU (hrnotU b hb)
    constructor
    · rw [hr]
      exact List.Pairwise.sublist (List.take_sublist _ _) hPairAll
    · intro hlen
      have hplen : products.length ≤ limit := by omega
      refine ⟨r.take (limit - products.length), ?_, ?_⟩
      · rw [hr, List.take_append_eq_append_take,
          List.take_of_length_le hplen, ← hML]
      · exact fun p hp => hrnotU p (List.take_subset _ _ hp)
  · rw [if_neg hsplit]
    constructor
    · exact List.Pairwise.sublist (List.take_sublist _ _) hPairR
    · intro hlen
      refine ⟨[], ?_, by simp⟩
      rw [List.append_nil, ← hML]
      exact List.take_of_length_le (by omega)

/-- Witness for C3 at a concrete table and rule set: two rules for the
basket SKU `"A"`, the higher-confidence consequent first. -/
theorem recommend_rule_order_witness :
    (recommend_associated_products
      [⟨1, "X", 1, 100, some 40, 5, true, 1⟩, ⟨2, "Y", 1, 100, some 50, 5, true, 2⟩,
       ⟨3, "Z", 2, 100, some 30, 5, true, 3⟩, ⟨4, "A", 2, 100, some 10, 5, true, 4⟩]
      (some [⟨["A"], ["X", "Y"], 2⟩, ⟨["A"], ["Z"], 5⟩]) ["A"] 2 []).Pairwise
      (fun p q =>
        p.sku ∈ uniqueSuggested (cleanSkus ["A"])
          (suggestionsOf [⟨["A"], ["X", "Y"], 2⟩, ⟨["A"], ["Z"], 5⟩]
            (cleanSkus ["A"])) →
        q.sku ∈ uniqueSuggested (cleanSkus ["A"])
          (suggestionsOf [⟨["A"], ["X", "Y"], 2⟩, ⟨["A"], ["Z"], 5⟩]
            (cleanSkus ["A"])) →
        skuSortKey (uniqueSuggested (cleanSkus ["A"])
          (suggestionsOf [⟨["A"], ["X", "Y"], 2⟩, ⟨["A"], ["Z"], 5⟩]
            (cleanSkus ["A"]))) p.sku <
        skuSortKey (uniqueSuggested (cleanSkus ["A"])
          (suggestionsOf [⟨["A"], ["X", "Y"], 2⟩, ⟨["A"], ["Z"], 5⟩]
            (cleanSkus ["A"]))) q.sku) :=
  (recommend_rule_order
    [⟨1, "X", 1, 100, some 40, 5, true, 1⟩, ⟨2, "Y", 1, 100, some 50, 5, true, 2⟩,
     ⟨3, "Z", 2, 100, some 30, 5, true, 3⟩, ⟨4, "A", 2, 100, some 10, 5, true, 4⟩]
    [⟨["A"], ["X", "Y"], 2⟩, ⟨["A"], ["Z"], 5⟩] ["A"] 2 []
    (uniqueSuggested (cleanSkus ["A"])
      (suggestionsOf [⟨["A"], ["X", "Y"], 2⟩, ⟨["A"], ["Z"], 5⟩]
        (cleanSkus ["A"])))
    (by decide) (by decide) rfl).1

end AuroraMart
